import Mathlib

/-!
# A verification development of the LRtrader order-execution core

This file gives a shallow embedding, in Lean 4, of the data model and the
operations of the LRtrader trading engine (`src/schema/order.py`,
`src/schema/trade.py`, `src/schema/position.py`, `src/logic/order.py`,
`src/logic/predicate.py`), together with theorems settling the behavioural
claims made about that code.

Modelling conventions:
* Python `float` quantities (sizes, prices, thresholds) are embedded as `ℚ`.
* Python `datetime` instants are embedded as `ℚ` (seconds); a difference of
  two instants is the elapsed seconds, matching `.total_seconds()`.
* Python dictionaries (which preserve insertion order) are embedded as
  insertion-ordered association lists `List (Nat × α)` with lookup of the
  first matching key; `updKey` updates in place or appends, exactly like a
  Python dict assignment, and `eraseKey` removes the key like `dict.pop`.
* Exceptions are embedded with `Except MongerError`; a raise that happens
  after the receiver has already been partially mutated carries the
  partially mutated state where that matters.
-/

namespace LRtrader

/-- Order types, from `OrderType` in `src/schema/enums.py`. -/
inductive OrderType where
  | ENTRY
  | TAKE_PROFIT
  | STOP_LOSS
  | EXIT
  | EMERGENCY_EXIT
  | DANGLING_SHARES
deriving DecidableEq, Repr

/-- Order actions, from `OrderAction` in `src/schema/enums.py`. -/
inductive OrderAction where
  | BUY
  | SELL
deriving DecidableEq, Repr

/-- Position sides, from `PositionSide` in `src/schema/enums.py`. -/
inductive PositionSide where
  | LONG
  | SHORT
deriving DecidableEq, Repr

/-- Order statuses, from `OrderStatus` in `src/schema/enums.py`. -/
inductive OrderStatus where
  | PRE_SUBMITTED
  | SUBMITTED
  | FILLED
  | CANCELED
deriving DecidableEq, Repr

/-- The exception classes of `src/error.py`, plus the `RuntimeError` raised by
`OrderExecutor` methods when the executor is not initialized. -/
inductive MongerError where
  | OrderDoesNotExistError
  | InvalidExecutionError
  | CannotModifyFilledOrderError
  | StopLossCooldownIsActiveError
  | TradeLockedError
  | RuntimeNotInitialized
deriving DecidableEq, Repr

/-- `MongerOrder` from `src/schema/order.py` (the broker-facing order record). -/
structure MongerOrder where
  order_id : Nat
  order_type : OrderType
  action : OrderAction
  size : ℚ
  limit_price : ℚ
  filled : ℚ := 0
  avg_price : ℚ := 0
  status : OrderStatus := .SUBMITTED
  created_at : ℚ := 0
deriving DecidableEq, Repr

/-- Python-dict-style update on an insertion-ordered association list:
replace the value in place if the key is present, else append at the end. -/
def updKey (l : List (Nat × α)) (k : Nat) (v : α) : List (Nat × α) :=
  match l with
  | [] => [(k, v)]
  | (k', v') :: rest =>
      if k' = k then (k, v) :: rest else (k', v') :: updKey rest k v

/-- Python `dict.pop(k, None)`: drop the entry with the given key. (A dict
never holds a duplicate key, so dropping every occurrence from the
association list is the same as dropping the one entry.) -/
def eraseKey (l : List (Nat × α)) (k : Nat) : List (Nat × α) :=
  l.filter (fun kv => kv.1 ≠ k)

/-- First-match lookup on an association list (Python dict `get`). -/
def findKey (l : List (Nat × α)) (k : Nat) : Option α :=
  match l with
  | [] => none
  | (k', v') :: rest => if k' = k then some v' else findKey rest k

/-- Sum of the values of an association list (`sum(d.values())`). -/
def sumVals (l : List (Nat × ℚ)) : ℚ :=
  (l.map Prod.snd).sum

/-- `sum(size * price for size, price in zip(sizes.values(), prices.values()))`:
the two dicts are always updated in lockstep, so we zip their value lists. -/
def sumProds (sizes prices : List (Nat × ℚ)) : ℚ :=
  ((sizes.map Prod.snd).zip (prices.map Prod.snd)).foldr
    (fun p acc => p.1 * p.2 + acc) 0

/-- `round(x, 2)` on the embedded rationals. (Python rounds floats half to
even; no claim in this file depends on the half-cent tie behaviour.) -/
def round2 (q : ℚ) : ℚ := (round (q * 100) : ℤ) / 100

/-! ## PendingOrderPool (`src/schema/order.py`) -/

/-- `PendingOrderPool`: order-id-keyed arena of live orders. -/
structure PendingOrderPool where
  index : List (Nat × MongerOrder) := []
deriving DecidableEq, Repr

namespace PendingOrderPool

/-- `PendingOrderPool.orders`: the live orders, in insertion order. -/
def orders (p : PendingOrderPool) : List MongerOrder :=
  p.index.map Prod.snd

/-- `PendingOrderPool.submit_order`: guard called before any broker call.
Rejects a type/action disagreement with an existing record, a non-positive
size, and an order that already carries a fill; otherwise inserts or
overwrites under the order's id. -/
def submit_order (p : PendingOrderPool) (order : MongerOrder) :
    Except MongerError (MongerOrder × PendingOrderPool) :=
  let check : Except MongerError Unit :=
    match findKey p.index order.order_id with
    | some existing =>
        if order.order_type ≠ existing.order_type then
          .error .InvalidExecutionError
        else if order.action ≠ existing.action then
          .error .InvalidExecutionError
        else .ok ()
    | none => .ok ()
  match check with
  | .error e => .error e
  | .ok () =>
      if order.size ≤ 0 then .error .InvalidExecutionError
      else if order.filled > 0 then .error .CannotModifyFilledOrderError
      else .ok (order, ⟨updKey p.index order.order_id order⟩)

/-- `PendingOrderPool.handle_submitted`: update the record in place for
partial-fill visibility; the pool keeps the order. -/
def handle_submitted (p : PendingOrderPool) (order_id : Nat)
    (filled avg_price : ℚ) :
    Except MongerError (MongerOrder × PendingOrderPool) :=
  match findKey p.index order_id with
  | none => .error .OrderDoesNotExistError
  | some order =>
      if filled < 0 then .error .InvalidExecutionError
      else
        let order' :=
          if filled > 0 then
            { order with filled := filled, avg_price := avg_price }
          else order
        .ok (order', ⟨updKey p.index order_id order'⟩)

/-- `PendingOrderPool.handle_filled`: pop the id, stamp the terminal FILLED
status and the reported fill, and return the removed record. -/
def handle_filled (p : PendingOrderPool) (order_id : Nat)
    (filled avg_price : ℚ) :
    Except MongerError (MongerOrder × PendingOrderPool) :=
  match findKey p.index order_id with
  | none => .error .OrderDoesNotExistError
  | some order =>
      .ok ({ order with filled := filled, avg_price := avg_price,
                        status := .FILLED },
           ⟨eraseKey p.index order_id⟩)

/-- `PendingOrderPool.handle_cancelled`: pop the id, stamp the terminal
CANCELED status, and return the removed record. -/
def handle_cancelled (p : PendingOrderPool) (order_id : Nat)
    (filled avg_price : ℚ) :
    Except MongerError (MongerOrder × PendingOrderPool) :=
  match findKey p.index order_id with
  | none => .error .OrderDoesNotExistError
  | some order =>
      .ok ({ order with filled := filled, avg_price := avg_price,
                        status := .CANCELED },
           ⟨eraseKey p.index order_id⟩)

end PendingOrderPool

/-! ## Trade (`src/schema/trade.py`) -/

/-- `Trade`: a chain of entry fills with per-order-id entry and exit fill
maps. Time instants (`updated_at`, `first_execution`, `last_execution`) are
seconds as `ℚ`; the private pydantic attributes are plain fields here. -/
structure Trade where
  trade_id : Nat
  side : PositionSide
  size : ℚ
  avg_price : ℚ
  take_profit_anchor : ℚ
  created_at : ℚ := 0
  updated_at : ℚ := 0
  take_profit_order : Option MongerOrder := none
  stop_loss_order : Option MongerOrder := none
  exit_order : Option MongerOrder := none
  take_profit_filled : Bool := false
  trade_threshold : ℚ := 0
  hold_threshold : ℚ := 0
  first_execution : ℚ := 0
  last_execution : ℚ := 0
  entry_fills_sizes : List (Nat × ℚ) := []
  entry_avg_prices : List (Nat × ℚ) := []
  exit_fills_sizes : List (Nat × ℚ) := []
  exit_avg_prices : List (Nat × ℚ) := []
  take_profit_target : ℚ := 0
  stop_loss_target : ℚ := 0
deriving DecidableEq, Repr

namespace Trade

/-- `Trade.is_locked`: more than `trade_threshold` seconds have elapsed
since the last update, so the trade accepts no further entries. -/
def is_locked (t : Trade) (now : ℚ) : Bool :=
  now - t.updated_at > t.trade_threshold

/-- `Trade.is_expired`: more than `hold_threshold` seconds have elapsed
since the midpoint of the first and the last entry execution. -/
def is_expired (t : Trade) (now : ℚ) : Bool :=
  now - (t.first_execution + (t.last_execution - t.first_execution) / 2)
    > t.hold_threshold

/-- `Trade.get_take_profit_price`: `none` once the take profit has been
marked filled; otherwise a fractional offset from the anchor when the
configured target is ≤ 1.0 and a flat dollar offset when it is > 1.0,
with the sign chosen by the trade side. -/
def get_take_profit_price (t : Trade) : Option ℚ :=
  if t.take_profit_filled then none
  else if t.take_profit_target ≤ 1 then
    if t.side = .LONG then
      some (t.take_profit_anchor * (1 + t.take_profit_target))
    else
      some (t.take_profit_anchor * (1 - t.take_profit_target))
  else
    if t.side = .LONG then
      some (t.take_profit_anchor + t.take_profit_target)
    else
      some (t.take_profit_anchor - t.take_profit_target)

/-- `Trade.get_take_profit_size`: half the trade size (floor division). -/
def get_take_profit_size (t : Trade) : Option ℚ :=
  if t.take_profit_filled then none
  else some ⌊t.size / 2⌋

/-- `Trade.get_stop_loss_price`: fractional offset from the anchor when the
configured target is ≤ 1.0, flat dollar offset when > 1.0, signed opposite
to the take profit. (The `market_data` parameter of the source is unused.) -/
def get_stop_loss_price (t : Trade) : Option ℚ :=
  if t.stop_loss_target ≤ 1 then
    if t.side = .LONG then
      some (t.take_profit_anchor * (1 - t.stop_loss_target))
    else
      some (t.take_profit_anchor * (1 + t.stop_loss_target))
  else
    if t.side = .LONG then
      some (t.take_profit_anchor - t.stop_loss_target)
    else
      some (t.take_profit_anchor + t.stop_loss_target)

/-- `Trade.from_entry`: create a trade from its founding entry execution. -/
def from_entry (now : ℚ) (order_id : Nat) (side : PositionSide)
    (size avg_price trade_threshold hold_threshold
     take_profit_target stop_loss_target : ℚ) : Trade :=
  { trade_id := order_id
    side := side
    size := size
    avg_price := avg_price
    take_profit_anchor := avg_price
    created_at := now
    updated_at := now
    trade_threshold := trade_threshold
    hold_threshold := hold_threshold
    first_execution := now
    last_execution := now
    entry_fills_sizes := [(order_id, size)]
    entry_avg_prices := [(order_id, avg_price)]
    take_profit_target := take_profit_target
    stop_loss_target := stop_loss_target }

/-- `Trade.add`: fold an entry execution into the per-order-id entry fill
map and recompute `size = Σ entry fills − Σ exit fills` and the weighted
average entry price. Rejects a side mismatch and a locked trade. -/
def add (t : Trade) (now : ℚ) (order_id : Nat) (side : PositionSide)
    (size avg_price : ℚ) : Except MongerError Trade :=
  if t.side ≠ side then .error .InvalidExecutionError
  else if t.is_locked now then .error .TradeLockedError
  else
    let efs := updKey t.entry_fills_sizes order_id size
    let eap := updKey t.entry_avg_prices order_id avg_price
    let shares_added := sumVals efs
    let shares_removed := sumVals t.exit_fills_sizes
    .ok { t with
      entry_fills_sizes := efs
      entry_avg_prices := eap
      size := shares_added - shares_removed
      avg_price := round2 (sumProds efs eap / shares_added)
      updated_at := now
      last_execution := now }

/-- `Trade.open_orders`: the live order references attached to a trade, in
the source's order exit / take-profit / stop-loss. -/
def open_orders (t : Trade) : List MongerOrder :=
  t.exit_order.toList ++ t.take_profit_order.toList ++ t.stop_loss_order.toList

/-- `Trade.realized_pnl`: derived from the exit-fill map only. -/
def realized_pnl (t : Trade) : ℚ :=
  if t.exit_fills_sizes = [] then 0
  else
    let total_exit_value := sumProds t.exit_fills_sizes t.exit_avg_prices
    let total_exit_size := sumVals t.exit_fills_sizes
    let total_entry_value := sumProds t.entry_fills_sizes t.entry_avg_prices
    let total_entry_size := sumVals t.entry_fills_sizes
    let avg_exit_price :=
      if total_exit_size > 0 then total_exit_value / total_exit_size else 0
    let avg_entry_price :=
      if total_entry_size > 0 then total_entry_value / total_entry_size else 0
    if t.side = .LONG then
      round2 ((avg_exit_price - avg_entry_price) * total_exit_size)
    else
      round2 ((avg_entry_price - avg_exit_price) * total_exit_size)

/-- `Trade.add_exit_order`: attach an exit order; rejected while the trade
is not yet expired. -/
def add_exit_order (t : Trade) (now : ℚ) (order : MongerOrder) :
    Except MongerError Trade :=
  if ¬ t.is_expired now then .error .InvalidExecutionError
  else .ok { t with exit_order := some order }

/-- `Trade.set_take_profit_order`: attach a take-profit order reference. -/
def set_take_profit_order (t : Trade) (order : MongerOrder) :
    Except MongerError Trade :=
  if order.order_type ≠ .TAKE_PROFIT then .error .InvalidExecutionError
  else .ok { t with take_profit_order := some order }

/-- `Trade.set_stop_loss_order`: attach a stop-loss order reference. -/
def set_stop_loss_order (t : Trade) (order : MongerOrder) :
    Except MongerError Trade :=
  if order.order_type ≠ .STOP_LOSS then .error .InvalidExecutionError
  else .ok { t with stop_loss_order := some order }

/-- `Trade.remove`: fold an exit-type fill into the per-order-id exit fill
map. `new_fills = min(size, num_shares − already-recorded fills)`; when that
is `0` the function returns `0` immediately without touching the trade;
otherwise it shrinks `size` by `new_fills` (clamped at `0`) and returns
`num_shares − (new_fills + already-recorded fills)`. The first component of
the result is the returned value, the second the updated trade. -/
def remove (t : Trade) (order_id : Nat) (num_shares exit_price : ℚ) :
    ℚ × Trade :=
  let exit_fills := (findKey t.exit_fills_sizes order_id).getD 0
  let new_fills := min t.size (num_shares - exit_fills)
  if new_fills = 0 then (new_fills, t)
  else
    (num_shares - (new_fills + exit_fills),
     { t with
        exit_fills_sizes :=
          updKey t.exit_fills_sizes order_id (exit_fills + new_fills)
        exit_avg_prices := updKey t.exit_avg_prices order_id exit_price
        size := max 0 (t.size - new_fills) })

end Trade

/-! ## Position (`src/schema/position.py`) -/

/-- The fields of `TraderAssignment` (`src/schema/assignment.py`) that the
core order/position logic reads. -/
structure TraderAssignment where
  position_size : Int := 100
  max_position_size : Int := 1000
  trade_threshold : ℚ := 60
  hold_threshold : ℚ := 300
  take_profit_target : ℚ := 3/10
  stop_loss_target : ℚ := 1/2
deriving DecidableEq, Repr

/-- `Position` from `src/schema/position.py`. `trades` is kept in insertion
order, which coincides with ascending `created_at` because a trade is
inserted exactly when it is created, so the source's `all_trades` sort is
the identity on this list. The pydantic private attributes are plain
fields. -/
structure Position where
  assignment : TraderAssignment
  pool : PendingOrderPool := {}
  trades : List (Nat × Trade) := []
  orders_to_cancel : List MongerOrder := []
  true_share_count : Int := 0
  contract_id : Option Int := none
  cooldown_triggered : Option ℚ := none
  position_side_cached : Option PositionSide := none
  realized_pnls : List ℚ := []
deriving DecidableEq, Repr

namespace Position

/-- `Position.size`: the sum of the live trade sizes. -/
def size (p : Position) : ℚ :=
  (p.trades.map (fun kv => kv.2.size)).sum

/-- `Position.side`: `none` when the computed size is zero and no side is
cached; otherwise the side of a live trade, falling back to the cached side
when no trade is live. (The source also re-caches the side on every read;
reads are modelled by the explicit `readSide` step of `PosStep`.) -/
def side (p : Position) : Option PositionSide :=
  if p.size = 0 ∧ p.position_side_cached = none then none
  else
    match p.trades with
    | [] => p.position_side_cached
    | (_, t) :: _ => some t.side

/-- `Position.in_cooldown`: a stop loss reached the broker less than
`trade_threshold` seconds ago. (The source also clears the expired trigger
on read, which does not change the returned value of this or any later
read.) -/
def in_cooldown (p : Position) (now : ℚ) : Bool :=
  match p.cooldown_triggered with
  | none => false
  | some t => now - t < p.assignment.trade_threshold

/-- `Position.open_trade`: the first trade still accepting entries. -/
def open_trade (p : Position) (now : ℚ) : Option (Nat × Trade) :=
  p.trades.find? (fun kv => ! kv.2.is_locked now)

/-- `Position.trade_to_close`: the first expired trade. -/
def trade_to_close (p : Position) (now : ℚ) : Option (Nat × Trade) :=
  p.trades.find? (fun kv => kv.2.is_expired now)

/-- `Position.set_cancel_status`: mark an order for cancellation, skipping
ids already marked. -/
def set_cancel_status (p : Position) (order : MongerOrder) : Position :=
  if order.order_id ∈ p.orders_to_cancel.map MongerOrder.order_id then p
  else { p with orders_to_cancel := p.orders_to_cancel ++ [order] }

/-- `Position.add_to_position`: fold an entry fill into the open trade, or
create a new trade when none is open. Rejects an entry whose side opposes a
non-empty position. -/
def add_to_position (p : Position) (now : ℚ) (order_id : Nat)
    (action : OrderAction) (sz avg_price : ℚ) :
    Except MongerError (Trade × Position) :=
  let sd : PositionSide := if action = .BUY then .LONG else .SHORT
  if p.size > 0 ∧ p.side ≠ some sd then .error .InvalidExecutionError
  else
    match p.open_trade now with
    | some (tid, t) =>
        match t.add now order_id sd sz avg_price with
        | .error e => .error e
        | .ok t' => .ok (t', { p with trades := updKey p.trades tid t' })
    | none =>
        let t := Trade.from_entry now order_id sd sz avg_price
          p.assignment.trade_threshold p.assignment.hold_threshold
          p.assignment.take_profit_target p.assignment.stop_loss_target
        .ok (t, { p with trades := updKey p.trades t.trade_id t })

/-- The loop body of `Position.remove_from_position`: walk the trades in
creation order, skip trades bracketed by a different take-profit/stop-loss
order, fold the fill into each visited trade, mark a fully-consumed
take-profit, close emptied trades (collecting their open orders for
cancellation and their realized PnL), and stop once no shares remain.
Returns the surviving trades, the orders collected for cancellation, and
the realized PnLs of the closed trades. -/
def removeLoop (order_id : Nat) (price : ℚ)
    (is_stop_loss is_take_profit : Bool) :
    ℚ → List (Nat × Trade) →
    List (Nat × Trade) × List MongerOrder × List ℚ
  | _, [] => ([], [], [])
  | num_shares, (tid, t) :: rest =>
      let skip_tp : Bool := is_take_profit &&
        (match t.take_profit_order with
         | some o => o.order_id ≠ order_id
         | none => false)
      let skip_sl : Bool := is_stop_loss &&
        (match t.stop_loss_order with
         | some o => o.order_id ≠ order_id
         | none => false)
      if skip_tp || skip_sl then
        let (rest', cancels, pnls) :=
          removeLoop order_id price is_stop_loss is_take_profit num_shares rest
        ((tid, t) :: rest', cancels, pnls)
      else
        let (num', t1) := t.remove order_id num_shares price
        let t2 := if is_take_profit && num' = 0 then
            { t1 with take_profit_filled := true }
          else t1
        if t2.size = 0 then
          if num' = 0 then (rest, t2.open_orders, [t2.realized_pnl])
          else
            let (rest', cancels, pnls) :=
              removeLoop order_id price is_stop_loss is_take_profit num' rest
            (rest', t2.open_orders ++ cancels, t2.realized_pnl :: pnls)
        else
          if num' = 0 then ((tid, t2) :: rest, [], [])
          else
            let (rest', cancels, pnls) :=
              removeLoop order_id price is_stop_loss is_take_profit num' rest
            ((tid, t2) :: rest', cancels, pnls)

/-- `Position.remove_from_position`: remove shares from the position by
iterating over the trades; emptied trades are archived (realized PnL
appended) and dropped, and their open orders are marked for cancellation.
The side cache is uncached exactly when the trade map becomes empty. -/
def remove_from_position (p : Position) (order_id : Nat)
    (num_shares price : ℚ) (is_stop_loss is_take_profit : Bool) : Position :=
  let (trades', to_cancel, pnls) :=
    removeLoop order_id price is_stop_loss is_take_profit num_shares p.trades
  let p1 := { p with
    trades := trades'
    realized_pnls := p.realized_pnls ++ pnls
    position_side_cached :=
      if trades' = [] ∧ p.trades ≠ [] then none else p.position_side_cached }
  to_cancel.foldl set_cancel_status p1

/-- Clear the take-profit reference of the first trade holding the given
order id (`get_trade_by_take_profit_order_id` followed by the reset). -/
def clearTPLoop (order_id : Nat) : List (Nat × Trade) → List (Nat × Trade)
  | [] => []
  | (tid, t) :: rest =>
      match t.take_profit_order with
      | some o =>
          if o.order_id = order_id then
            (tid, { t with take_profit_order := none }) :: rest
          else (tid, t) :: clearTPLoop order_id rest
      | none => (tid, t) :: clearTPLoop order_id rest

/-- Clear the stop-loss reference of the first trade holding the given
order id (`get_trade_by_stop_loss_order_id` followed by the reset). -/
def clearSLLoop (order_id : Nat) : List (Nat × Trade) → List (Nat × Trade)
  | [] => []
  | (tid, t) :: rest =>
      match t.stop_loss_order with
      | some o =>
          if o.order_id = order_id then
            (tid, { t with stop_loss_order := none }) :: rest
          else (tid, t) :: clearSLLoop order_id rest
      | none => (tid, t) :: clearSLLoop order_id rest

/-- `Position.submit_order`: the centralized guard run before any broker
call. The `parent_trade` argument names the parent trade by id; the source
passes the trade object of this position and mutates it in place. On an
error raised after the source has already mutated the receiver the partial
state is dropped here; no theorem below depends on the state after a failed
submission. -/
def submit_order (p : Position) (now : ℚ) (order : MongerOrder)
    (parent_trade : Option Nat) : Except MongerError (MongerOrder × Position) := do
  if order.filled > 0 then throw .CannotModifyFilledOrderError
  if p.in_cooldown now ∧ order.order_type ≠ .EMERGENCY_EXIT
      ∧ order.order_type ≠ .STOP_LOSS
      ∧ order.order_type ≠ .DANGLING_SHARES then
    throw .StopLossCooldownIsActiveError
  if order.order_type = .ENTRY then
    if p.side = some .LONG ∧ order.action ≠ .BUY then
      throw .InvalidExecutionError
    if p.side = some .SHORT ∧ order.action ≠ .SELL then
      throw .InvalidExecutionError
  let (order, p) ←
    if order.order_type = .EXIT then
      match p.trade_to_close now with
      | none => throw .InvalidExecutionError
      | some (tid, ttc) => do
          let order := if order.size > ttc.size then
              { order with size := ttc.size }
            else order
          if ttc.side = .LONG ∧ order.action ≠ .SELL then
            throw .InvalidExecutionError
          if ttc.side = .SHORT ∧ order.action ≠ .BUY then
            throw .InvalidExecutionError
          match ttc.exit_order with
          | some eo =>
              if eo.order_id ≠ order.order_id then
                throw .InvalidExecutionError
          | none => pure ()
          let ttc' ← ttc.add_exit_order now order
          pure (order, { p with trades := updKey p.trades tid ttc' })
    else pure (order, p)
  match order.order_type with
  | .ENTRY => do
      let (order, pool') ← p.pool.submit_order order
      pure (order, { p with pool := pool' })
  | .EXIT =>
      match parent_trade with
      | none => throw .InvalidExecutionError
      | some ptid => do
          let (order, pool') ← p.pool.submit_order order
          match findKey p.trades ptid with
          | none => throw .InvalidExecutionError
          | some pt => do
              let pt' ← pt.add_exit_order now order
              pure (order, { p with pool := pool',
                                    trades := updKey p.trades ptid pt' })
  | .TAKE_PROFIT =>
      match parent_trade with
      | none => throw .InvalidExecutionError
      | some ptid => do
          let (order, pool') ← p.pool.submit_order order
          match findKey p.trades ptid with
          | none => throw .InvalidExecutionError
          | some pt => do
              let pt' ← pt.set_take_profit_order order
              pure (order, { p with pool := pool',
                                    trades := updKey p.trades ptid pt' })
  | .STOP_LOSS =>
      match parent_trade with
      | none => throw .InvalidExecutionError
      | some ptid => do
          let (order, pool') ← p.pool.submit_order order
          match findKey p.trades ptid with
          | none => throw .InvalidExecutionError
          | some pt => do
              let pt' ← pt.set_stop_loss_order order
              pure (order, { p with pool := pool',
                                    trades := updKey p.trades ptid pt' })
  | .EMERGENCY_EXIT => do
      let (order, pool') ← p.pool.submit_order order
      pure (order, { p with pool := pool' })
  | .DANGLING_SHARES => do
      let (order, pool') ← p.pool.submit_order order
      pure (order, { p with pool := pool' })

/-- `Position.handle_position_update`: updates the broker-reported
`true_share_count` (and the contract id) without touching the trades or
reconciling the internal size; a reported mismatch or limit breach only
invokes the external position-limit-check callback, which mutates no
Position state. When the broker count transitions to exactly zero, every
live take-profit/stop-loss order in the pool is marked for cancellation. -/
def handle_position_update (p : Position) (contract_id : Int)
    (position : Int) : Position :=
  let original_true := p.true_share_count
  let p1 := { p with contract_id := some contract_id,
                     true_share_count := position }
  if p1.true_share_count = 0 ∧ original_true ≠ 0 then
    (p1.pool.orders.filter
      (fun o => o.order_type == .TAKE_PROFIT || o.order_type == .STOP_LOSS)
      ).foldl set_cancel_status p1
  else p1

/-- `Position.handle_submitted`: partial-fill visibility update; a stop
loss reaching SUBMITTED starts the cooldown. -/
def handle_submitted (p : Position) (now : ℚ) (order_id : Nat)
    (filled avg_price : ℚ) : Except MongerError (MongerOrder × Position) := do
  let (order, pool') ← p.pool.handle_submitted order_id filled avg_price
  let p := { p with pool := pool' }
  match order.order_type with
  | .ENTRY => pure (order, p)
  | .EXIT =>
      match p.trade_to_close now with
      | none => throw .InvalidExecutionError
      | some (tid, ttc) => do
          let ttc' ← ttc.add_exit_order now order
          pure (order, { p with trades := updKey p.trades tid ttc' })
  | .TAKE_PROFIT => pure (order, p)
  | .STOP_LOSS => pure (order, { p with cooldown_triggered := some now })
  | .EMERGENCY_EXIT => pure (order, p)
  | .DANGLING_SHARES => pure (order, p)

/-- `Position.handle_filled`: pop the order from the pool and dispatch on
its type. An exception raised after the pool was already mutated carries
the partially mutated position, as in the source, where the pool pop
precedes the raise. -/
def handle_filled (p : Position) (now : ℚ) (order_id : Nat)
    (filled avg_price : ℚ) :
    Except (MongerError × Position) (MongerOrder × Position) :=
  match p.pool.handle_filled order_id filled avg_price with
  | .error e => .error (e, p)
  | .ok (filled_order, pool') =>
      let p1 := { p with pool := pool' }
      match filled_order.order_type with
      | .ENTRY =>
          match p1.add_to_position now order_id filled_order.action
              filled avg_price with
          | .error e => .error (e, p1)
          | .ok (_, p2) => .ok (filled_order, p2)
      | .EXIT =>
          .ok (filled_order,
            p1.remove_from_position order_id filled avg_price false false)
      | .TAKE_PROFIT =>
          let p2 := p1.remove_from_position order_id filled avg_price
            false true
          .ok (filled_order, { p2 with trades := clearTPLoop order_id p2.trades })
      | .STOP_LOSS =>
          let p2 := p1.remove_from_position order_id filled avg_price
            true false
          let p3 := { p2 with cooldown_triggered := some now }
          .ok (filled_order, { p3 with trades := clearSLLoop order_id p3.trades })
      | .EMERGENCY_EXIT =>
          .ok (filled_order,
            p1.remove_from_position order_id filled avg_price false false)
      | .DANGLING_SHARES =>
          .ok (filled_order, { p1 with pool := ⟨eraseKey p1.pool.index order_id⟩ })

/-- `Position.handle_cancelled`: pop the order from the pool and dispatch
on its type; a cancelled order's partial fill is folded into the trades. -/
def handle_cancelled (p : Position) (now : ℚ) (order_id : Nat)
    (filled avg_price : ℚ) :
    Except (MongerError × Position) (MongerOrder × Position) :=
  match p.pool.handle_cancelled order_id filled avg_price with
  | .error e => .error (e, p)
  | .ok (cancelled_order, pool') =>
      let p1 := { p with pool := pool' }
      match cancelled_order.order_type with
      | .ENTRY =>
          if filled > 0 then
            match p1.add_to_position now order_id cancelled_order.action
                filled avg_price with
            | .error e => .error (e, p1)
            | .ok (_, p2) => .ok (cancelled_order, p2)
          else .ok (cancelled_order, p1)
      | .EXIT =>
          if filled > 0 then
            let p2 := p1.remove_from_position order_id filled avg_price
              false false
            match p2.trade_to_close now with
            | none => .error (.InvalidExecutionError, p2)
            | some (tid, ttc) =>
                .ok (cancelled_order,
                  { p2 with trades :=
                      updKey p2.trades tid { ttc with exit_order := none } })
          else .ok (cancelled_order, p1)
      | .TAKE_PROFIT =>
          let p2 := if filled > 0 then
              p1.remove_from_position order_id filled avg_price false true
            else p1
          .ok (cancelled_order,
            { p2 with trades := clearTPLoop order_id p2.trades })
      | .STOP_LOSS =>
          let p2 := if filled > 0 then
              p1.remove_from_position order_id filled avg_price true false
            else p1
          .ok (cancelled_order,
            { p2 with trades := clearSLLoop order_id p2.trades })
      | .EMERGENCY_EXIT =>
          .ok (cancelled_order,
            if filled > 0 then
              p1.remove_from_position order_id filled avg_price false false
            else p1)
      | .DANGLING_SHARES =>
          .ok (cancelled_order, { p1 with pool := ⟨eraseKey p1.pool.index order_id⟩ })

end Position

/-! ## OrderExecutor (`src/logic/order.py`, `src/logic/predicate.py`) -/

/-- Signal directions, from `PriceDirection` in `src/schema/prediction.py`. -/
inductive PriceDirection where
  | BULLISH
  | BEARISH
deriving DecidableEq, Repr

/-- The `OrderExecutor` state the order-placement logic reads: its position,
the two flags, and the order-id counter wrapped by `OrderIdManager`. -/
structure OrderExecutor where
  assignment : TraderAssignment
  position : Position
  initialized : Bool := true
  is_emergency_exit : Bool := false
  next_order_id : Nat := 1
deriving DecidableEq, Repr

namespace OrderExecutor

/-- `PositionSizePredicate.apply` (`src/logic/predicate.py`): the absolute
broker-reported share count is strictly below the configured maximum. -/
def positionSizePredicate (a : TraderAssignment) (p : Position) : Bool :=
  |p.true_share_count| < a.max_position_size

/-- `TraderMixin.check_boolean_entry_predicate`: the size predicate holds
and the position is not in cooldown. -/
def check_boolean_entry_predicate (ex : OrderExecutor) (now : ℚ) : Bool :=
  positionSizePredicate ex.assignment ex.position
    && ! ex.position.in_cooldown now

/-- `OrderExecutor.place_order`. The result carries the id of the order
placed (if any), the executor state, and the `placeOrder` calls issued to
the broker boundary. A `CannotModifyFilledOrderError` or cooldown error
from `Position.submit_order` propagates (only `InvalidExecutionError` is
caught and swallowed in the source). -/
def place_order (ex : OrderExecutor) (now : ℚ) (order_type : OrderType)
    (order_action : OrderAction) (sz price : ℚ) (parent_trade : Option Nat) :
    Except MongerError (Option Nat × OrderExecutor × List (Nat × MongerOrder)) :=
  if ¬ ex.initialized then .error .RuntimeNotInitialized
  else if ex.is_emergency_exit ∧ order_type ≠ .EMERGENCY_EXIT then
    .ok (none, ex, [])
  else if order_type = .ENTRY ∧ order_action = .BUY ∧
      ((|ex.position.true_share_count| : ℚ) + sz
          > (ex.assignment.max_position_size : ℚ)
        ∨ |ex.position.true_share_count| ≥ ex.assignment.max_position_size) then
    .ok (none, ex, [])
  else
    let order_id := ex.next_order_id
    let ex := { ex with next_order_id := ex.next_order_id + 1 }
    let order : MongerOrder :=
      { order_id := order_id, order_type := order_type,
        action := order_action, size := sz, limit_price := price }
    match ex.position.submit_order now order parent_trade with
    | .error .InvalidExecutionError => .ok (none, ex, [])
    | .error e => .error e
    | .ok (order', p') =>
        .ok (some order_id, { ex with position := p' }, [(order_id, order')])

/-- `TraderMixin.handle_prediction`: re-check the entry predicates, reject
when the broker-reported count is at or above the cap, compute
`size = min(max_position_size − |true_share_count|, position_size)`, reject
a non-positive size, and place an ENTRY order at the given fresh entry
price. -/
def handle_prediction (ex : OrderExecutor) (now : ℚ) (flag : PriceDirection)
    (entry_price : ℚ) :
    Except MongerError (Option Nat × OrderExecutor × List (Nat × MongerOrder)) :=
  if check_boolean_entry_predicate ex now then
    let current_tws_position := |ex.position.true_share_count|
    if current_tws_position ≥ ex.assignment.max_position_size then
      .ok (none, ex, [])
    else
      let delta_to_max := ex.assignment.max_position_size - current_tws_position
      let position_size := min delta_to_max ex.assignment.position_size
      if position_size ≤ 0 then .ok (none, ex, [])
      else
        let order_action : OrderAction :=
          if flag = .BULLISH then .BUY else .SELL
        ex.place_order now .ENTRY order_action (position_size : ℚ)
          entry_price none
  else .ok (none, ex, [])

/-- `OrderStatusMixin._handle_order_pre_submitted`: for a PRE_SUBMITTED
status the executor only looks the order up and, for a stop loss on a
zero-size position, issues a broker cancel; the position state - in
particular the cooldown trigger - is untouched. The returned list holds
the ids passed to `cancelOrder`. -/
def handle_order_pre_submitted (ex : OrderExecutor) (order_id : Nat) :
    OrderExecutor × List Nat :=
  match findKey ex.position.pool.index order_id with
  | none => (ex, [])
  | some ord =>
      match ord.order_type with
      | .STOP_LOSS =>
          if ex.position.size = 0 then (ex, [ord.order_id]) else (ex, [])
      | _ => (ex, [])

end OrderExecutor

/-! ## Spec-side rule and auxiliary machinery for the claims -/

/-- The bracket-pricing rule as the spec words it: a configured target value
≤ 1.0 is a fractional offset from the anchor (`anchor*(1 ± target)`), a
target value > 1.0 a flat dollar offset (`anchor ± target`); `sign` is `1`
for the offset direction "up" and `-1` for "down". -/
def specTargetPrice (anchor target sign : ℚ) : ℚ :=
  if target ≤ 1 then anchor * (1 + sign * target) else anchor + sign * target

/-- An abstract `Trade.add` / `Trade.remove` call, for stating the size
invariant over arbitrary operation sequences. -/
inductive TradeOp where
  | addOp (now : ℚ) (order_id : Nat) (side : PositionSide) (sz avg_price : ℚ)
  | removeOp (order_id : Nat) (num_shares exit_price : ℚ)

/-- Apply one operation to a trade; a rejected `add` (side mismatch or
locked trade) raises in the source before mutating anything, so it leaves
the trade unchanged here. -/
def Trade.applyOp (t : Trade) (op : TradeOp) : Trade :=
  match op with
  | .addOp now id sd sz ap => ((t.add now id sd sz ap).toOption).getD t
  | .removeOp id ns ep => (t.remove id ns ep).2

/-- Apply a sequence of operations to a trade. -/
def Trade.applyOps (t : Trade) (ops : List TradeOp) : Trade :=
  ops.foldl Trade.applyOp t

/-- An operation is benign for nonnegativity when any `add` carries a
nonnegative size and an order id that is either new to the trade's entry
map or re-applies the identical recorded size (the duplicate-delivery
no-op the source's fill maps are built for). -/
def benignOp (t : Trade) (op : TradeOp) : Prop :=
  match op with
  | .addOp _ id _ sz _ =>
      0 ≤ sz ∧ (findKey t.entry_fills_sizes id = none
        ∨ findKey t.entry_fills_sizes id = some sz)
  | .removeOp _ _ _ => True

/-- Every operation of the sequence is benign at its point of application. -/
def BenignSeq (t : Trade) : List TradeOp → Prop
  | [] => True
  | op :: rest => benignOp t op ∧ BenignSeq (t.applyOp op) rest

/-- Two trades agree on everything `Position.side` / `Position.size` and
the size invariant read: the key fields left untouched by attaching or
clearing take-profit / stop-loss / exit order references. -/
def sameCore (t t' : Trade) : Prop :=
  t'.side = t.side ∧ t'.size = t.size
    ∧ t'.entry_fills_sizes = t.entry_fills_sizes
    ∧ t'.exit_fills_sizes = t.exit_fills_sizes

/-- The cache side effect of a `Position.side` read: the source's computed
property caches the first live trade's side whenever the early
`size == 0 and cache is None` return is not taken. -/
def Position.readSideCache (p : Position) : Position :=
  { p with position_side_cached :=
      if p.size = 0 ∧ p.position_side_cached = none then
        p.position_side_cached
      else
        match p.trades with
        | [] => p.position_side_cached
        | (_, t) :: _ => some t.side }

/-- A freshly constructed `Position` for a ticker assignment. -/
def Position.initial (a : TraderAssignment) : Position :=
  { assignment := a }

/-- One mutation step of a `Position`, as driven by the event handlers of
`src/schema/position.py`. The guards on `entryFill` reflect what the pool
layer enforces before `add_to_position` is ever reached: an entry order is
admitted to the pool only with a positive size, a fill is propagated with a
positive filled amount (`handle_cancelled` folds a partial fill only when
`filled > 0`), and each order id is popped from the pool exactly once, so
the id is new to every entry-fill map. `exitFill` covers the exit-type
fills (EXIT / TAKE_PROFIT / STOP_LOSS / EMERGENCY_EXIT) routed through
`remove_from_position`; `attachRefs` covers every mutation that only
attaches or clears bracket/exit order references on trades; `readSide`
is the caching side effect of reading `Position.side`; `otherFields`
covers the mutations of the fields `Position.side` / `Position.size`
never read (pool contents, broker count, cooldown, cancel marks, PnL
history, contract id). -/
inductive PosStep : Position → Position → Prop where
  | entryFill (p : Position) (now : ℚ) (id : Nat) (action : OrderAction)
      (sz ap : ℚ) (t : Trade) (p' : Position)
      (hsz : 0 < sz)
      (hfresh : ∀ kv ∈ p.trades, findKey kv.2.entry_fills_sizes id = none)
      (hok : p.add_to_position now id action sz ap = .ok (t, p')) :
      PosStep p p'
  | exitFill (p : Position) (id : Nat) (ns price : ℚ) (is_sl is_tp : Bool) :
      PosStep p (p.remove_from_position id ns price is_sl is_tp)
  | readSide (p : Position) : PosStep p p.readSideCache
  | attachRefs (p : Position) (trades' : List (Nat × Trade))
      (h : List.Forall₂
        (fun kv kv' => kv'.1 = kv.1 ∧ sameCore kv.2 kv'.2) p.trades trades') :
      PosStep p { p with trades := trades' }
  | otherFields (p : Position) (pool' : PendingOrderPool)
      (cancel' : List MongerOrder) (tsc' : Int) (cid' : Option Int)
      (cd' : Option ℚ) (pnls' : List ℚ) :
      PosStep p
        { p with
            pool := pool'
            orders_to_cancel := cancel'
            true_share_count := tsc'
            contract_id := cid'
            cooldown_triggered := cd'
            realized_pnls := pnls' }

/-- A `Position` state reachable from a freshly constructed position by
the mutation steps of `PosStep`. -/
def PosReachable (p : Position) : Prop :=
  ∃ a, Relation.ReflTransGen PosStep (Position.initial a) p

/-- Per-trade component of the position invariant: a live trade has a
positive size satisfying the entry/exit-sum equation and records its own
founding order id in its entry-fill map. -/
def TradeRecInv (kv : Nat × Trade) : Prop :=
  0 < kv.2.size
    ∧ kv.2.size = sumVals kv.2.entry_fills_sizes
        - sumVals kv.2.exit_fills_sizes
    ∧ (findKey kv.2.entry_fills_sizes kv.1).isSome

/-- The inductive invariant carried along `PosStep`: every live trade
satisfies `TradeRecInv`, the trade keys are distinct, and the side cache is
clear whenever no trade is live. -/
def PosInv (p : Position) : Prop :=
  (∀ kv ∈ p.trades, TradeRecInv kv)
    ∧ (p.trades.map Prod.fst).Nodup
    ∧ (p.trades = [] → p.position_side_cached = none)

/-! ## Concrete states used by the counterexamples and witnesses -/

/-- A LONG trade anchored at $100 with `take_profit_target = 0.30` and
`stop_loss_target = 0.50`. -/
def tradeAnchor100 : Trade :=
  Trade.from_entry 0 1 PositionSide.LONG 100 100 60 300 (3/10) (1/2)

/-- The same trade with the fractional target `0.02`. -/
def tradeAnchor100frac : Trade :=
  Trade.from_entry 0 1 PositionSide.LONG 100 100 60 300 (2/100) (1/2)

/-- A founding entry of 100 shares at $50 (order id 1). -/
def tC5start : Trade :=
  Trade.from_entry 0 1 PositionSide.LONG 100 50 60 300 (3/10) (1/2)

/-- ... after an exit fill of all 100 shares (order id 2): size 0. -/
def tC5emptied : Trade := (tC5start.remove 2 100 55).2

/-- ... after re-applying entry order id 1 with the smaller size 30: the
entry-fill map entry is overwritten and the size turns negative. -/
def tC5negative : Trade :=
  ((tC5emptied.add 0 1 PositionSide.LONG 30 50).toOption).getD tC5emptied

/-- A founding entry of 100 shares at $50 (order id 1), for the removeExit
accounting counterexample. -/
def tC8start : Trade :=
  Trade.from_entry 0 1 PositionSide.LONG 100 50 60 300 (3/10) (1/2)

/-- ... emptied by an exit fill of 100 shares (order id 2): size 0 with 100
recorded exit fills. -/
def tC8emptied : Trade := (tC8start.remove 2 100 55).2

/-- A live ENTRY order record that already carries a partial fill of 50. -/
def orderC6existing : MongerOrder :=
  { order_id := 1, order_type := OrderType.ENTRY, action := OrderAction.BUY,
    size := 5, limit_price := 10, filled := 50 }

/-- A resubmission under the same id, same type and action, no fill. -/
def orderC6resubmit : MongerOrder :=
  { order_id := 1, order_type := OrderType.ENTRY, action := OrderAction.BUY,
    size := 10, limit_price := 11 }

/-- A pool holding the partially filled record. -/
def poolC6 : PendingOrderPool := ⟨[(1, orderC6existing)]⟩

/-- A live STOP_LOSS order (id 7). -/
def orderC4sl : MongerOrder :=
  { order_id := 7, order_type := OrderType.STOP_LOSS,
    action := OrderAction.SELL, size := 10, limit_price := 99 }

/-- A fresh ENTRY order (id 9). -/
def orderC4entry : MongerOrder :=
  { order_id := 9, order_type := OrderType.ENTRY, action := OrderAction.BUY,
    size := 10, limit_price := 101 }

/-- A position holding one live LONG trade of 10 shares and the live
stop-loss order, with no cooldown triggered. -/
def posC4 : Position :=
  { assignment := {}, pool := ⟨[(7, orderC4sl)]⟩,
    trades := [(1, Trade.from_entry 0 1 PositionSide.LONG 10 100 60 300
      (3/10) (1/2))] }

/-- The executor owning `posC4`. -/
def exC4 : OrderExecutor := { assignment := {}, position := posC4 }

/-- A single filled pool record, for the C2 witness. -/
def poolC2 : PendingOrderPool :=
  ⟨[(3, { order_id := 3, order_type := OrderType.EXIT,
          action := OrderAction.SELL, size := 4, limit_price := 20 })]⟩

/-- The assignment of the spec's scenario: unit size 100, cap 300. -/
def asgC3 : TraderAssignment :=
  { position_size := 100, max_position_size := 300 }

/-- An executor at the configured position cap
(`max_position_size = 300 = true_share_count`), for the C3 witness. -/
def exC3atCap : OrderExecutor :=
  { assignment := asgC3,
    position := { assignment := asgC3, true_share_count := 300 } }

/-- An initialized executor with the emergency-exit flag raised, for the
C10 witness. -/
def exC10 : OrderExecutor :=
  { assignment := {}, position := { assignment := {} },
    is_emergency_exit := true }

/-- A position carrying one live take-profit order, one live stop-loss
order and one live entry order, with a non-zero broker count, for the C7
witness. -/
def posC7 : Position :=
  { assignment := {},
    pool := ⟨[(7, orderC4sl), (9, orderC4entry),
      (11, { order_id := 11, order_type := OrderType.TAKE_PROFIT,
             action := OrderAction.SELL, size := 5, limit_price := 105 })]⟩,
    true_share_count := 5 }

/-! ## Helper lemmas on the association-list operations -/

theorem findKey_updKey_self (l : List (Nat × α)) (k : Nat) (v : α) :
    findKey (updKey l k v) k = some v := by
  induction l with
  | nil => simp [updKey, findKey]
  | cons kv rest ih =>
      obtain ⟨k', v'⟩ := kv
      by_cases h : k' = k <;> simp [updKey, findKey, h, ih]

theorem findKey_eraseKey_self (l : List (Nat × α)) (k : Nat) :
    findKey (eraseKey l k) k = none := by
  induction l with
  | nil => simp [eraseKey, findKey]
  | cons kv rest ih =>
      obtain ⟨k', v'⟩ := kv
      by_cases h : k' = k <;>
        simp [eraseKey, List.filter, h, findKey] at ih ⊢ <;>
        simpa [eraseKey] using ih

theorem sumVals_updKey (l : List (Nat × ℚ)) (k : Nat) (v : ℚ) :
    sumVals (updKey l k v) = sumVals l - (findKey l k).getD 0 + v := by
  induction l with
  | nil => simp [updKey, findKey, sumVals]
  | cons kv rest ih =>
      obtain ⟨k', v'⟩ := kv
      by_cases h : k' = k
      · simp [updKey, findKey, h, sumVals]
        ring
      · simp [updKey, findKey, h, sumVals] at ih ⊢
        rw [ih]
        ring

theorem sumVals_cons (kv : Nat × ℚ) (l : List (Nat × ℚ)) :
    sumVals (kv :: l) = kv.2 + sumVals l := by
  simp [sumVals]

/-! ## Claim theorems -/

/-- C1, counterexample: the claim asserts that a LONG trade anchored at
$100 with `take_profit_target = 0.30` gets the flat-offset take profit
price $100.30; the code classifies 0.30 ≤ 1.0 as a fractional target, so
`get_take_profit_price` returns $130.00, not $100.30. -/
theorem C1_take_profit_counterexample :
    tradeAnchor100.take_profit_target = 0.30
      ∧ tradeAnchor100.get_take_profit_price = some 130
      ∧ (130 : ℚ) ≠ 100.30 := by
  refine ⟨by norm_num [tradeAnchor100, Trade.from_entry],
    by norm_num [tradeAnchor100, Trade.from_entry, Trade.get_take_profit_price],
    by norm_num⟩

/-- C1 (amended): a configured target value ≤ 1.0 is a fractional offset
from the anchor (`anchor*(1 ± target)`) and a target value > 1.0 a flat
dollar offset (`anchor ± target`), with the sign chosen by the trade side
and the bracket (take profit moves with the side, stop loss against it);
for a LONG trade anchored at $100, `take_profit_target = 0.30` falls in
fractional mode (0.30 ≤ 1.0) and yields $130.00, and
`take_profit_target = 0.02` yields $102.00. -/
theorem C1_bracket_target_pricing (t : Trade)
    (h : t.take_profit_filled = false) :
    t.get_take_profit_price
        = some (specTargetPrice t.take_profit_anchor t.take_profit_target
            (if t.side = PositionSide.LONG then 1 else -1))
      ∧ t.get_stop_loss_price
        = some (specTargetPrice t.take_profit_anchor t.stop_loss_target
            (if t.side = PositionSide.LONG then -1 else 1))
      ∧ tradeAnchor100.get_take_profit_price = some 130
      ∧ tradeAnchor100frac.get_take_profit_price = some 102 := by
  refine ⟨?_, ?_,
    by norm_num [tradeAnchor100, Trade.from_entry, Trade.get_take_profit_price],
    by norm_num [tradeAnchor100frac, Trade.from_entry,
      Trade.get_take_profit_price]⟩ <;>
  cases hs : t.side <;>
    simp only [Trade.get_take_profit_price, Trade.get_stop_loss_price,
      specTargetPrice, h, hs, Bool.false_eq_true, if_false] <;>
    split_ifs <;> exact congrArg some (by ring)

/-- Witness for C1: the pricing rule evaluated on the concrete LONG trade
anchored at $100 with target 0.30. -/
theorem C1_bracket_target_pricing_witness :
    tradeAnchor100.get_take_profit_price
      = some (specTargetPrice tradeAnchor100.take_profit_anchor
          tradeAnchor100.take_profit_target
          (if tradeAnchor100.side = PositionSide.LONG then 1 else -1)) :=
  (C1_bracket_target_pricing tradeAnchor100 rfl).1

/-- C2: for every order id present in the pool, `handle_filled` and
`handle_cancelled` pop the id, stamp the terminal status and the reported
fill, and return the removed record; on the pool that results, a second
delivery of either terminal event for the same id fails with
`OrderDoesNotExistError`, and in general a terminal event for an absent id
fails with `OrderDoesNotExistError` (the rejecting calls return only the
error, so the caller's pool is untouched), making the second delivery of a
terminal event a no-op. -/
theorem C2_terminal_idempotence (p : PendingOrderPool) (id : Nat)
    (f a f2 a2 : ℚ) (o : MongerOrder) (h : findKey p.index id = some o) :
    p.handle_filled id f a
        = .ok ({ o with filled := f, avg_price := a,
                        status := OrderStatus.FILLED },
               ⟨eraseKey p.index id⟩)
      ∧ p.handle_cancelled id f a
        = .ok ({ o with filled := f, avg_price := a,
                        status := OrderStatus.CANCELED },
               ⟨eraseKey p.index id⟩)
      ∧ PendingOrderPool.handle_filled ⟨eraseKey p.index id⟩ id f2 a2
        = .error .OrderDoesNotExistError
      ∧ PendingOrderPool.handle_cancelled ⟨eraseKey p.index id⟩ id f2 a2
        = .error .OrderDoesNotExistError
      ∧ ∀ q : PendingOrderPool, findKey q.index id = none →
          q.handle_filled id f2 a2 = .error .OrderDoesNotExistError
          ∧ q.handle_cancelled id f2 a2 = .error .OrderDoesNotExistError := by
  refine ⟨?_, ?_, ?_, ?_, fun q hq => ⟨?_, ?_⟩⟩ <;>
    simp_all [PendingOrderPool.handle_filled,
      PendingOrderPool.handle_cancelled, findKey_eraseKey_self]

/-- Witness for C2: the concrete one-order pool, order id 3. -/
theorem C2_terminal_idempotence_witness :
    poolC2.handle_filled 3 4 20
      = .ok ({ order_id := 3, order_type := OrderType.EXIT,
               action := OrderAction.SELL, size := 4, limit_price := 20,
               filled := 4, avg_price := 20, status := OrderStatus.FILLED },
             ⟨eraseKey poolC2.index 3⟩) :=
  (C2_terminal_idempotence poolC2 3 4 20 4 20 _ rfl).1

/-- C6, counterexample: the claim asserts `submit_order` rejects with
`CannotModifyFilledOrderError` when the existing record under the id has
`filled > 0`; the code checks the incoming order's `filled` instead, so
resubmitting over a partially filled record (existing `filled = 50`,
incoming `filled = 0`, same type and action) is accepted and overwrites
the record. -/
theorem C6_counterexample :
    orderC6existing.filled > 0
      ∧ findKey poolC6.index orderC6resubmit.order_id = some orderC6existing
      ∧ poolC6.submit_order orderC6resubmit
        = .ok (orderC6resubmit, ⟨[(1, orderC6resubmit)]⟩) := by
  refine ⟨by norm_num [orderC6existing], by rfl, by rfl⟩

/-- C6 (amended): `submit_order` rejects with `InvalidExecutionError` if an
existing order under the same id disagrees in type or action, or else if
the order's size is ≤ 0; it rejects with `CannotModifyFilledOrderError` if
the submitted order itself carries `filled > 0` (the existing record's
fill is not inspected); otherwise it inserts or overwrites the order in
the pool under its id. -/
theorem C6_submit_order_guards (p : PendingOrderPool) (o : MongerOrder) :
    (∀ ex, findKey p.index o.order_id = some ex →
        (o.order_type ≠ ex.order_type ∨ o.action ≠ ex.action) →
        p.submit_order o = .error .InvalidExecutionError)
      ∧ ((∀ ex, findKey p.index o.order_id = some ex →
            o.order_type = ex.order_type ∧ o.action = ex.action) →
          (o.size ≤ 0 → p.submit_order o = .error .InvalidExecutionError)
          ∧ (¬ o.size ≤ 0 → o.filled > 0 →
              p.submit_order o = .error .CannotModifyFilledOrderError)
          ∧ (¬ o.size ≤ 0 → ¬ o.filled > 0 →
              p.submit_order o
                = .ok (o, ⟨updKey p.index o.order_id o⟩))) := by
  unfold PendingOrderPool.submit_order
  constructor
  · intro ex hex hne
    rcases hne with hne | hne <;> simp [hex, hne]
  · intro hagree
    cases hfk : findKey p.index o.order_id with
    | none =>
        refine ⟨fun hsz => by simp [hfk, hsz], fun hsz hf => ?_,
          fun hsz hf => ?_⟩ <;> simp [hfk, hsz, hf]
    | some ex =>
        obtain ⟨hty, hact⟩ := hagree ex hfk
        refine ⟨fun hsz => by simp [hfk, hty, hact, hsz],
          fun hsz hf => ?_, fun hsz hf => ?_⟩ <;>
          simp [hfk, hty, hact, hsz, hf]

/-- Witness for C6 (amended): submitting a fresh, unfilled ENTRY order of
size 10 over the empty pool succeeds and inserts it. -/
theorem C6_submit_order_guards_witness :
    PendingOrderPool.submit_order ⟨[]⟩ orderC6resubmit
      = .ok (orderC6resubmit, ⟨updKey [] orderC6resubmit.order_id
          orderC6resubmit⟩) :=
  ((C6_submit_order_guards ⟨[]⟩ orderC6resubmit).2
    (fun ex hex => by simp [findKey] at hex)).2.2
    (by norm_num [orderC6resubmit]) (by norm_num [orderC6resubmit])

/-- C10: while the executor's `is_emergency_exit` flag is raised, a
`place_order` call of any type other than EMERGENCY_EXIT on an initialized
executor returns immediately with no order id, the executor (its position,
pool, trades and order-id counter) unchanged, and no broker `placeOrder`
call issued. -/
theorem C10_emergency_exit_lockout (ex : OrderExecutor) (now : ℚ)
    (ty : OrderType) (act : OrderAction) (sz price : ℚ) (pt : Option Nat)
    (hinit : ex.initialized = true) (hem : ex.is_emergency_exit = true)
    (hty : ty ≠ OrderType.EMERGENCY_EXIT) :
    ex.place_order now ty act sz price pt = .ok (none, ex, []) := by
  simp [OrderExecutor.place_order, hinit, hem, hty]

/-- Witness for C10: an initialized executor in emergency mode declines an
ENTRY order. -/
theorem C10_emergency_exit_lockout_witness :
    exC10.place_order 0 OrderType.ENTRY OrderAction.BUY 10 100 none
      = .ok (none, exC10, []) :=
  C10_emergency_exit_lockout exC10 0 OrderType.ENTRY OrderAction.BUY 10 100
    none rfl rfl (by decide)

/-- C8, counterexample: the claim asserts the returned leftover equals
`numShares − recorded fills − delta`; on a trade of size 0 with no fills
recorded for exit order id 3, `remove(3, 50, 60)` computes `delta = 0` and
takes the early return that yields `0`, while the claimed leftover is
`50 − 0 − 0 = 50`. -/
theorem C8_counterexample :
    tC8emptied.size = 0
      ∧ findKey tC8emptied.exit_fills_sizes 3 = none
      ∧ (tC8emptied.remove 3 50 60).1 = 0
      ∧ 50 - (findKey tC8emptied.exit_fills_sizes 3).getD 0
          - min tC8emptied.size
              (50 - (findKey tC8emptied.exit_fills_sizes 3).getD 0) = 50
      ∧ (0 : ℚ) ≠ 50 := by
  have h1 : tC8emptied.size = 0 := by
    norm_num [tC8emptied, tC8start, Trade.remove, Trade.from_entry, findKey,
      min_def, max_def]
  have h2 : findKey tC8emptied.exit_fills_sizes 3 = none := by
    norm_num [tC8emptied, tC8start, Trade.remove, Trade.from_entry, findKey,
      min_def, max_def, updKey]
  have h3 : (tC8emptied.remove 3 50 60).1 = 0 := by
    norm_num [Trade.remove, h1, h2, min_def]
  refine ⟨h1, h2, h3, by norm_num [h1, h2, min_def], by norm_num⟩

/-- C8 (amended): for every trade of nonnegative size and every call
`remove(orderId, numShares, price)` with `numShares` at least the exit
fills already recorded for that order id, and in which additionally the
trade's size is positive or `numShares` equals the recorded fills (when
the newly-accounted delta is zero but shares remain unaccounted, the
early return reports `0` instead of the remainder), the trade's size
decreases by exactly `delta = min(previous size, numShares − recorded
fills)` and stays nonnegative, the delta is folded into the per-order-id
exit-fill map, and the returned leftover equals
`numShares − recorded fills − delta`. -/
theorem C8_remove_exit_accounting (t : Trade) (id : Nat) (ns price : ℚ)
    (hsz : 0 ≤ t.size)
    (hns : (findKey t.exit_fills_sizes id).getD 0 ≤ ns)
    (hmain : 0 < t.size ∨ ns = (findKey t.exit_fills_sizes id).getD 0) :
    ((t.remove id ns price).2).size
        = t.size - min t.size (ns - (findKey t.exit_fills_sizes id).getD 0)
      ∧ 0 ≤ ((t.remove id ns price).2).size
      ∧ (findKey ((t.remove id ns price).2).exit_fills_sizes id).getD 0
        = (findKey t.exit_fills_sizes id).getD 0
          + min t.size (ns - (findKey t.exit_fills_sizes id).getD 0)
      ∧ (t.remove id ns price).1
        = ns - (findKey t.exit_fills_sizes id).getD 0
          - min t.size (ns - (findKey t.exit_fills_sizes id).getD 0) := by
  set ef := (findKey t.exit_fills_sizes id).getD 0 with hef
  set nf := min t.size (ns - ef) with hnf
  have hnf_le : nf ≤ t.size := min_le_left _ _
  have hrem : t.remove id ns price =
      if nf = 0 then (nf, t)
      else (ns - (nf + ef),
        { t with
            exit_fills_sizes := updKey t.exit_fills_sizes id (ef + nf)
            exit_avg_prices := updKey t.exit_avg_prices id price
            size := max 0 (t.size - nf) }) := by
    simp only [Trade.remove, ← hef, ← hnf]
  by_cases h0 : nf = 0
  · have hns0 : ns - ef = 0 := by
      rcases hmain with hpos | heq
      · rcases le_total (ns - ef) t.size with hle | hle
        · have hr : nf = ns - ef := min_eq_right hle
          linarith
        · have hl : nf = t.size := min_eq_left hle
          linarith
      · simp [heq]
    rw [hrem, if_pos h0]
    refine ⟨by simp [h0], by simpa using hsz, by simp [h0], ?_⟩
    simp only [h0]
    linarith
  · rw [hrem, if_neg h0]
    have hmax : max 0 (t.size - nf) = t.size - nf :=
      max_eq_right (by linarith)
    refine ⟨by simp [hmax], ?_, by simp [findKey_updKey_self], by ring⟩
    simp only [hmax]
    linarith

/-- Witness for C8 (amended): removing 40 of the 100 shares of the
founding entry via exit order id 2. -/
theorem C8_remove_exit_accounting_witness :
    ((tC8start.remove 2 40 55).2).size
      = tC8start.size
        - min tC8start.size
            (40 - (findKey tC8start.exit_fills_sizes 2).getD 0) :=
  (C8_remove_exit_accounting tC8start 2 40 55
    (by norm_num [tC8start, Trade.from_entry])
    (by norm_num [tC8start, Trade.from_entry, findKey])
    (Or.inl (by norm_num [tC8start, Trade.from_entry]))).1

/-! ## Helper lemmas for the trade size invariant -/

theorem remove_keeps_sum_eq (t : Trade) (id : Nat) (ns price : ℚ)
    (hinv : t.size
      = sumVals t.entry_fills_sizes - sumVals t.exit_fills_sizes) :
    ((t.remove id ns price).2).size
      = sumVals ((t.remove id ns price).2).entry_fills_sizes
        - sumVals ((t.remove id ns price).2).exit_fills_sizes := by
  set ef := (findKey t.exit_fills_sizes id).getD 0 with hef
  set nf := min t.size (ns - ef) with hnf
  have hnf_le : nf ≤ t.size := min_le_left _ _
  by_cases h0 : nf = 0
  · simp only [Trade.remove, ← hef, ← hnf, h0, if_pos]
    simpa using hinv
  · simp only [Trade.remove, ← hef, ← hnf, if_neg h0]
    have hmax : max 0 (t.size - nf) = t.size - nf :=
      max_eq_right (by linarith)
    simp only [hmax, sumVals_updKey, ← hef]
    linarith

theorem remove_keeps_nonneg (t : Trade) (id : Nat) (ns price : ℚ)
    (h : 0 ≤ t.size) : 0 ≤ ((t.remove id ns price).2).size := by
  set ef := (findKey t.exit_fills_sizes id).getD 0 with hef
  set nf := min t.size (ns - ef) with hnf
  by_cases h0 : nf = 0
  · simp only [Trade.remove, ← hef, ← hnf, h0, if_pos]
    simpa using h
  · simp only [Trade.remove, ← hef, ← hnf, if_neg h0]
    exact le_max_left _ _

theorem applyOp_keeps_sum_eq (t : Trade) (op : TradeOp)
    (hinv : t.size
      = sumVals t.entry_fills_sizes - sumVals t.exit_fills_sizes) :
    (t.applyOp op).size
      = sumVals (t.applyOp op).entry_fills_sizes
        - sumVals (t.applyOp op).exit_fills_sizes := by
  cases op with
  | removeOp id ns ep => exact remove_keeps_sum_eq t id ns ep hinv
  | addOp now id sd sz ap =>
      simp only [Trade.applyOp, Trade.add]
      split_ifs with h1 h2
      · simpa using hinv
      · simpa using hinv
      · simp [Except.toOption, sumVals]

theorem applyOp_keeps_nonneg (t : Trade) (op : TradeOp)
    (hinv : t.size
      = sumVals t.entry_fills_sizes - sumVals t.exit_fills_sizes)
    (h0 : 0 ≤ t.size) (hb : benignOp t op) :
    0 ≤ (t.applyOp op).size := by
  cases op with
  | removeOp id ns ep => exact remove_keeps_nonneg t id ns ep h0
  | addOp now id sd sz ap =>
      obtain ⟨hsz, hfr⟩ := hb
      simp only [Trade.applyOp, Trade.add]
      split_ifs with h1 h2
      · simpa using h0
      · simpa using h0
      · simp only [Except.toOption, Option.getD, sumVals_updKey]
        rcases hfr with hnone | hsame
        · rw [hnone]
          simp only [Option.getD]
          linarith
        · rw [hsame]
          simp only [Option.getD]
          linarith

/-- C5, counterexample: the claim asserts the trade size is never negative
after any sequence of add/remove operations. Starting from a founding
LONG entry of 100 shares (order id 1), an exit fill of 100 shares (order
id 2) takes the size to 0; re-applying entry order id 1 with the smaller
size 30 — `Trade.add` overwrites the recorded entry fill — then yields
`size = 30 − 100 = −70 < 0`, while the equality
`size = Σ entry fills − Σ exit fills` still holds. -/
theorem C5_counterexample :
    (tC5emptied.add 0 1 PositionSide.LONG 30 50).toOption = some tC5negative
      ∧ tC5negative.size = -70
      ∧ tC5negative.size < 0 := by
  refine ⟨?_, ?_, ?_⟩ <;>
    norm_num [tC5negative, tC5emptied, tC5start, Trade.add, Trade.remove,
      Trade.from_entry, Trade.is_locked, updKey, findKey, sumVals, min_def,
      max_def, round2, sumProds, Except.toOption]

/-- C5 (amended): for every trade and every sequence of add (entry fill)
and remove (exit-type fill) operations, the trade's size equals the sum of
recorded entry fill sizes minus the sum of recorded exit fill sizes; the
size is additionally never negative provided every add carries a
nonnegative size and an order id that is either new to the entry-fill map
or re-applies the identical recorded size (a duplicate delivery) — an add
that overwrites a recorded entry fill with a smaller size can drive the
size negative. -/
theorem C5_trade_size_invariant (t : Trade) (ops : List TradeOp)
    (hinv : t.size
      = sumVals t.entry_fills_sizes - sumVals t.exit_fills_sizes) :
    ((t.applyOps ops).size
        = sumVals (t.applyOps ops).entry_fills_sizes
          - sumVals (t.applyOps ops).exit_fills_sizes)
      ∧ (0 ≤ t.size → BenignSeq t ops → 0 ≤ (t.applyOps ops).size) := by
  induction ops generalizing t with
  | nil => exact ⟨hinv, fun h _ => h⟩
  | cons op rest ih =>
      have h1 := applyOp_keeps_sum_eq t op hinv
      have step : t.applyOps (op :: rest) = (t.applyOp op).applyOps rest := rfl
      rw [step]
      refine ⟨(ih _ h1).1, fun h0 hb => ?_⟩
      obtain ⟨hbo, hbr⟩ := hb
      exact (ih _ h1).2 (applyOp_keeps_nonneg t op hinv h0 hbo) hbr

/-- Witness for C5 (amended): the founding entry of 100 shares followed by
a full exit fill keeps the size at `Σ entries − Σ exits = 0 ≥ 0`. -/
theorem C5_trade_size_invariant_witness :
    0 ≤ (tC5start.applyOps [TradeOp.removeOp 2 100 55]).size :=
  (C5_trade_size_invariant tC5start [TradeOp.removeOp 2 100 55]
    (by norm_num [tC5start, Trade.from_entry, sumVals])).2
    (by norm_num [tC5start, Trade.from_entry])
    (by simp [BenignSeq, benignOp])

/-! ## Helper lemmas on order submission and placement -/

theorem pool_submit_order_ok_val (p : PendingOrderPool)
    (o o' : MongerOrder) (q : PendingOrderPool)
    (h : p.submit_order o = .ok (o', q)) : o' = o := by
  unfold PendingOrderPool.submit_order at h
  cases hfk : findKey p.index o.order_id <;>
    simp only [hfk] at h <;> split_ifs at h <;> simp_all

theorem submit_order_entry_val (p : Position) (now : ℚ) (o : MongerOrder)
    (pt : Option Nat) (o' : MongerOrder) (p' : Position)
    (hty : o.order_type = OrderType.ENTRY)
    (h : p.submit_order now o pt = .ok (o', p')) : o' = o := by
  unfold Position.submit_order at h
  revert h
  cases ho : o.order_type with
  | ENTRY =>
      intro h
      simp only [bind, Except.bind, pure, Except.pure, throw, throwThe,
        MonadExcept.throw, reduceCtorEq, reduceIte, ne_eq] at h
      split_ifs at h
      try simp_all
      cases hps : p.pool.submit_order o with
      | error e => rw [hps] at h; simp at h
      | ok v =>
          obtain ⟨a, b⟩ := v
          rw [hps] at h
          simp only [Except.ok.injEq, Prod.mk.injEq] at h
          exact h.1 ▸ (pool_submit_order_ok_val p.pool o a b hps)
  | TAKE_PROFIT => rw [ho] at hty; simp at hty
  | STOP_LOSS => rw [ho] at hty; simp at hty
  | EXIT => rw [ho] at hty; simp at hty
  | EMERGENCY_EXIT => rw [ho] at hty; simp at hty
  | DANGLING_SHARES => rw [ho] at hty; simp at hty

theorem place_order_calls_shape (ex : OrderExecutor) (now : ℚ)
    (ty : OrderType) (act : OrderAction) (sz price : ℚ) (pt : Option Nat)
    (oid : Option Nat) (ex' : OrderExecutor)
    (calls : List (Nat × MongerOrder))
    (hty : ty = OrderType.ENTRY)
    (h : ex.place_order now ty act sz price pt = .ok (oid, ex', calls)) :
    ∀ c ∈ calls, c.2.order_type = ty ∧ c.2.size = sz := by
  intro c hc'
  unfold OrderExecutor.place_order at h
  split_ifs at h
  · simp only [Except.ok.injEq, Prod.mk.injEq] at h
    obtain ⟨-, -, h3⟩ := h
    subst h3
    simp at hc'
  · simp only [Except.ok.injEq, Prod.mk.injEq] at h
    obtain ⟨-, -, h3⟩ := h
    subst h3
    simp at hc'
  · dsimp only at h
    split at h
    · simp only [Except.ok.injEq, Prod.mk.injEq] at h
      obtain ⟨-, -, h3⟩ := h
      subst h3
      simp at hc'
    · simp at h
    · rename_i order' p' heq
      simp only [Except.ok.injEq, Prod.mk.injEq] at h
      obtain ⟨-, -, h3⟩ := h
      subst h3
      simp only [List.mem_singleton] at hc'
      subst hc'
      have ha := submit_order_entry_val ex.position now _ pt order' p'
        (by simpa using hty) heq
      subst ha
      exact ⟨hty.symm ▸ rfl, rfl⟩

/-- C3: for every inbound signal, no ENTRY order is placed when the
broker-reported count is at or above the cap (in particular at
`true_share_count = N` with `maxPositionSize = N`), when the position is
in cooldown, or when `min(headroom, configured unit size) ≤ 0`; and any
ENTRY order the handler does place has size exactly
`min(maxPositionSize − |true_share_count|, configured unit size)`. -/
theorem C3_entry_gating (ex : OrderExecutor) (now : ℚ)
    (flag : PriceDirection) (price : ℚ) :
    (|ex.position.true_share_count| ≥ ex.assignment.max_position_size →
        ex.handle_prediction now flag price = .ok (none, ex, []))
      ∧ (ex.position.in_cooldown now = true →
        ex.handle_prediction now flag price = .ok (none, ex, []))
      ∧ (min (ex.assignment.max_position_size
              - |ex.position.true_share_count|)
            ex.assignment.position_size ≤ 0 →
        ex.handle_prediction now flag price = .ok (none, ex, []))
      ∧ (∀ oid ex' calls,
          ex.handle_prediction now flag price = .ok (oid, ex', calls) →
          ∀ c ∈ calls, c.2.order_type = OrderType.ENTRY
            ∧ c.2.size = ((min (ex.assignment.max_position_size
                  - |ex.position.true_share_count|)
                ex.assignment.position_size : Int) : ℚ)) := by
  refine ⟨?_, ?_, ?_, ?_⟩
  · intro hge
    have hlt : ¬ (|ex.position.true_share_count|
        < ex.assignment.max_position_size) := not_lt.mpr hge
    simp [OrderExecutor.handle_prediction,
      OrderExecutor.check_boolean_entry_predicate,
      OrderExecutor.positionSizePredicate, hlt]
  · intro hcd
    simp [OrderExecutor.handle_prediction,
      OrderExecutor.check_boolean_entry_predicate, hcd]
  · intro hmin
    by_cases hp : OrderExecutor.check_boolean_entry_predicate ex now
    · have hp' := hp
      simp only [OrderExecutor.check_boolean_entry_predicate,
        OrderExecutor.positionSizePredicate, Bool.and_eq_true,
        decide_eq_true_eq] at hp'
      have hlt : |ex.position.true_share_count|
          < ex.assignment.max_position_size := hp'.1
      simp [OrderExecutor.handle_prediction, hp, not_le.mpr hlt, hmin]
    · simp [OrderExecutor.handle_prediction, hp]
  · intro oid ex' calls h c hc
    by_cases hp : OrderExecutor.check_boolean_entry_predicate ex now
    · by_cases hge : |ex.position.true_share_count|
          ≥ ex.assignment.max_position_size
      · simp only [OrderExecutor.handle_prediction, hp, if_true, hge,
          ge_iff_le, reduceIte] at h
        simp only [Except.ok.injEq, Prod.mk.injEq] at h
        obtain ⟨-, -, h3⟩ := h
        subst h3
        simp at hc
      · by_cases hmin : min (ex.assignment.max_position_size
              - |ex.position.true_share_count|)
            ex.assignment.position_size ≤ 0
        · simp only [OrderExecutor.handle_prediction, hp, if_true, hge,
            ge_iff_le, reduceIte, hmin] at h
          simp only [Except.ok.injEq, Prod.mk.injEq] at h
          obtain ⟨-, -, h3⟩ := h
          subst h3
          simp at hc
        · simp only [OrderExecutor.handle_prediction, hp, if_true, hge,
            ge_iff_le, reduceIte, hmin] at h
          exact place_order_calls_shape ex now OrderType.ENTRY _ _ price
            none oid ex' calls rfl h c hc
    · simp only [OrderExecutor.handle_prediction, hp, Bool.false_eq_true,
        if_false] at h
      simp only [Except.ok.injEq, Prod.mk.injEq] at h
      obtain ⟨-, -, h3⟩ := h
      subst h3
      simp at hc

/-- Witness for C3: at the cap (`true_share_count = 300` with
`max_position_size = 300`) the signal handler places nothing. -/
theorem C3_entry_gating_witness :
    exC3atCap.handle_prediction 0 PriceDirection.BULLISH 50
      = .ok (none, exC3atCap, []) :=
  (C3_entry_gating exC3atCap 0 PriceDirection.BULLISH 50).1
    (by norm_num [exC3atCap, asgC3])
theorem pool_submit_order_no_cooldown_error (p : PendingOrderPool)
    (o : MongerOrder) :
    p.submit_order o ≠ .error .StopLossCooldownIsActiveError := by
  unfold PendingOrderPool.submit_order
  cases hfk : findKey p.index o.order_id <;>
    simp only [hfk] <;> split_ifs <;> simp

theorem add_exit_order_no_cooldown_error (t : Trade) (now : ℚ)
    (o : MongerOrder) :
    t.add_exit_order now o ≠ .error .StopLossCooldownIsActiveError := by
  unfold Trade.add_exit_order
  split_ifs <;> simp

theorem set_take_profit_no_cooldown_error (t : Trade) (o : MongerOrder) :
    t.set_take_profit_order o ≠ .error .StopLossCooldownIsActiveError := by
  unfold Trade.set_take_profit_order
  split_ifs <;> simp

theorem set_stop_loss_no_cooldown_error (t : Trade) (o : MongerOrder) :
    t.set_stop_loss_order o ≠ .error .StopLossCooldownIsActiveError := by
  unfold Trade.set_stop_loss_order
  split_ifs <;> simp

set_option maxHeartbeats 1000000 in
theorem submit_order_cooldown_error_shape (p : Position) (now : ℚ)
    (o : MongerOrder) (pt : Option Nat)
    (h : p.submit_order now o pt = .error .StopLossCooldownIsActiveError) :
    p.in_cooldown now = true ∧ o.order_type ≠ OrderType.EMERGENCY_EXIT
      ∧ o.order_type ≠ OrderType.STOP_LOSS
      ∧ o.order_type ≠ OrderType.DANGLING_SHARES
      ∧ ¬ o.filled > 0 := by
  unfold Position.submit_order at h
  by_cases hf : o.filled > 0
  · rw [if_pos hf] at h
    simp [throw, throwThe, MonadExceptOf.throw, Functor.map, Except.map,
      bind, Except.bind] at h
  · rw [if_neg hf] at h
    by_cases hcd : p.in_cooldown now = true
        ∧ o.order_type ≠ OrderType.EMERGENCY_EXIT
        ∧ o.order_type ≠ OrderType.STOP_LOSS
        ∧ o.order_type ≠ OrderType.DANGLING_SHARES
    · exact ⟨hcd.1, hcd.2.1, hcd.2.2.1, hcd.2.2.2, hf⟩
    · exfalso
      rw [if_neg hcd] at h
      revert h
      cases ho : o.order_type <;> intro h <;>
        simp only [bind, Except.bind, pure, Except.pure, throw, throwThe,
          MonadExcept.throw, reduceCtorEq, ne_eq, not_false_eq_true,
          not_true_eq_false, and_true, and_false, if_true, if_false,
          ite_false, ite_true, reduceIte] at h <;>
        repeat
          first
            | (split_ifs at h <;>
                try simp_all [pool_submit_order_no_cooldown_error,
                  add_exit_order_no_cooldown_error,
                  set_take_profit_no_cooldown_error,
                  set_stop_loss_no_cooldown_error, Functor.map, Except.map,
                  bind, Except.bind, pure, Except.pure, throw, throwThe,
                  MonadExceptOf.throw])
            | (split at h <;>
                try simp_all [pool_submit_order_no_cooldown_error,
                  add_exit_order_no_cooldown_error,
                  set_take_profit_no_cooldown_error,
                  set_stop_loss_no_cooldown_error, Functor.map, Except.map,
                  bind, Except.bind, pure, Except.pure, throw, throwThe,
                  MonadExceptOf.throw])
            | simp_all [pool_submit_order_no_cooldown_error,
                add_exit_order_no_cooldown_error,
                set_take_profit_no_cooldown_error,
                set_stop_loss_no_cooldown_error, Functor.map, Except.map,
                bind, Except.bind, pure, Except.pure, throw, throwThe,
                MonadExceptOf.throw]

/-- C4, counterexample: the claim asserts the cooldown starts at a
STOP_LOSS order's first broker acknowledgment "(PRE_SUBMITTED or SUBMITTED
status)". Delivering PRE_SUBMITTED for the live stop-loss order id 7
leaves the executor - in particular the cooldown trigger - completely
unchanged (the PRE_SUBMITTED handler only cancels a stop loss on a
zero-size position), and an ENTRY order submitted immediately afterwards
succeeds instead of failing with `StopLossCooldownIsActiveError`. -/
theorem C4_counterexample :
    findKey posC4.pool.index 7 = some orderC4sl
      ∧ orderC4sl.order_type = OrderType.STOP_LOSS
      ∧ (exC4.handle_order_pre_submitted 7).1 = exC4
      ∧ exC4.position.cooldown_triggered = none
      ∧ (posC4.submit_order 5 orderC4entry none).toOption.isSome = true := by
  refine ⟨by rfl, by rfl, ?_, by rfl, ?_⟩
  · norm_num [exC4, posC4, OrderExecutor.handle_order_pre_submitted, findKey,
      orderC4sl, Position.size, Trade.from_entry, sumVals]
  · norm_num [posC4, orderC4entry, orderC4sl, Position.submit_order,
      Position.in_cooldown, Position.side, Position.size,
      Position.trade_to_close, Trade.is_expired, Trade.from_entry,
      PendingOrderPool.submit_order, findKey, updKey, sumVals,
      Except.toOption, bind, Except.bind, pure, Except.pure, throw, throwThe,
      MonadExceptOf.throw, reduceCtorEq]
    split_ifs <;> simp_all

/-- C4 (amended): the cooldown starts when a STOP_LOSS order reaches
SUBMITTED status (the broker acknowledgment handled by
`Position.handle_submitted`; a PRE_SUBMITTED status does not start it),
not only on fill; from that moment and for as long as fewer than
`trade_threshold` seconds have elapsed, every submission of an ENTRY,
EXIT, or TAKE_PROFIT order fails - with `StopLossCooldownIsActiveError`
unless the order already carries a partial fill, in which case
`CannotModifyFilledOrderError` fires first - while STOP_LOSS,
EMERGENCY_EXIT, and DANGLING_SHARES submissions are exempt from the
cooldown check. -/
theorem C4_stop_loss_cooldown :
    (∀ (p : Position) (now f a : ℚ) (sl_id : Nat) (sl : MongerOrder),
        findKey p.pool.index sl_id = some sl →
        sl.order_type = OrderType.STOP_LOSS → 0 ≤ f →
        (p.handle_submitted now sl_id f a).toOption.map
            (fun r => r.2.cooldown_triggered) = some (some now))
      ∧ (∀ (q : Position) (t now2 : ℚ), q.cooldown_triggered = some t →
          q.in_cooldown now2
            = decide (now2 - t < q.assignment.trade_threshold))
      ∧ (∀ (q : Position) (now2 : ℚ) (o : MongerOrder) (pt : Option Nat),
          q.in_cooldown now2 = true →
          (o.order_type = OrderType.ENTRY ∨ o.order_type = OrderType.EXIT
            ∨ o.order_type = OrderType.TAKE_PROFIT) →
          q.submit_order now2 o pt
            = .error (if o.filled > 0
                then MongerError.CannotModifyFilledOrderError
                else MongerError.StopLossCooldownIsActiveError))
      ∧ (∀ (q : Position) (now2 : ℚ) (o : MongerOrder) (pt : Option Nat),
          (o.order_type = OrderType.STOP_LOSS
            ∨ o.order_type = OrderType.EMERGENCY_EXIT
            ∨ o.order_type = OrderType.DANGLING_SHARES) →
          q.submit_order now2 o pt
            ≠ .error MongerError.StopLossCooldownIsActiveError) := by
  refine ⟨?_, ?_, ?_, ?_⟩
  · intro p now f a sl_id sl hfk hty hf
    unfold Position.handle_submitted PendingOrderPool.handle_submitted
    simp only [hfk, not_lt.mpr hf, if_neg, bind, Except.bind, pure,
      Except.pure, if_false, reduceIte]
    by_cases hf0 : f > 0 <;> simp [hf0, hty, Except.toOption]
  · intro q t now2 hct
    simp [Position.in_cooldown, hct]
  · intro q now2 o pt hcd hty
    unfold Position.submit_order
    by_cases hfil : o.filled > 0
    · rw [if_pos hfil]
      simp [hfil, throw, throwThe, MonadExceptOf.throw, bind, Except.bind]
    · rw [if_neg hfil]
      rcases hty with h | h | h <;>
        simp [hfil, hcd, h, throw, throwThe, MonadExceptOf.throw, bind,
          Except.bind, pure, Except.pure]
  · intro q now2 o pt hty heq
    obtain ⟨-, hne1, hne2, hne3, -⟩ :=
      submit_order_cooldown_error_shape q now2 o pt heq
    rcases hty with h | h | h
    · exact hne2 h
    · exact hne1 h
    · exact hne3 h

/-- Witness for C4: delivering SUBMITTED for the live stop-loss order id 7
of the concrete position stamps the cooldown trigger with the current
time. -/
theorem C4_stop_loss_cooldown_witness :
    (posC4.handle_submitted 5 7 0 0).toOption.map
        (fun r => r.2.cooldown_triggered) = some (some 5) :=
  C4_stop_loss_cooldown.1 posC4 5 0 0 7 orderC4sl rfl rfl le_rfl

/-! ## Helper lemmas on cancel marking -/

theorem set_cancel_status_frame (p : Position) (o : MongerOrder) :
    (p.set_cancel_status o).trades = p.trades
      ∧ (p.set_cancel_status o).pool = p.pool
      ∧ (p.set_cancel_status o).true_share_count = p.true_share_count
      ∧ (p.set_cancel_status o).contract_id = p.contract_id
      ∧ (p.set_cancel_status o).position_side_cached
          = p.position_side_cached := by
  unfold Position.set_cancel_status
  split_ifs <;> simp

theorem foldl_set_cancel_status_frame (l : List MongerOrder) (p : Position) :
    (l.foldl Position.set_cancel_status p).trades = p.trades
      ∧ (l.foldl Position.set_cancel_status p).pool = p.pool
      ∧ (l.foldl Position.set_cancel_status p).true_share_count
          = p.true_share_count
      ∧ (l.foldl Position.set_cancel_status p).contract_id = p.contract_id
      ∧ (l.foldl Position.set_cancel_status p).position_side_cached
          = p.position_side_cached := by
  induction l generalizing p with
  | nil => exact ⟨rfl, rfl, rfl, rfl, rfl⟩
  | cons a rest ih =>
      have h1 := set_cancel_status_frame p a
      have h2 := ih (p.set_cancel_status a)
      simp only [List.foldl_cons]
      exact ⟨h2.1.trans h1.1, h2.2.1.trans h1.2.1,
        h2.2.2.1.trans h1.2.2.1, h2.2.2.2.1.trans h1.2.2.2.1,
        h2.2.2.2.2.trans h1.2.2.2.2⟩

theorem set_cancel_status_marks (p : Position) (o : MongerOrder) :
    ∃ o' ∈ (p.set_cancel_status o).orders_to_cancel,
      o'.order_id = o.order_id := by
  unfold Position.set_cancel_status
  split_ifs with h
  · simp only [List.mem_map] at h
    obtain ⟨o', ho', hid⟩ := h
    exact ⟨o', ho', hid⟩
  · exact ⟨o, by simp, rfl⟩

theorem set_cancel_status_mono (p : Position) (o o' : MongerOrder)
    (h : o' ∈ p.orders_to_cancel) :
    o' ∈ (p.set_cancel_status o).orders_to_cancel := by
  unfold Position.set_cancel_status
  split_ifs <;> simp [h]

theorem foldl_set_cancel_status_mono (l : List MongerOrder) (p : Position)
    (o' : MongerOrder) (h : o' ∈ p.orders_to_cancel) :
    o' ∈ (l.foldl Position.set_cancel_status p).orders_to_cancel := by
  induction l generalizing p with
  | nil => exact h
  | cons a rest ih =>
      simp only [List.foldl_cons]
      exact ih _ (set_cancel_status_mono p a o' h)

theorem foldl_set_cancel_status_marks (l : List MongerOrder) (p : Position)
    (o : MongerOrder) (ho : o ∈ l) :
    ∃ o' ∈ (l.foldl Position.set_cancel_status p).orders_to_cancel,
      o'.order_id = o.order_id := by
  induction l generalizing p with
  | nil => simp at ho
  | cons a rest ih =>
      simp only [List.foldl_cons]
      rcases List.mem_cons.mp ho with rfl | hmem
      · obtain ⟨o', ho', hid⟩ := set_cancel_status_marks p o
        exact ⟨o', foldl_set_cancel_status_mono rest _ o' ho', hid⟩
      · exact ih _ hmem

/-- C7: the broker position-update handler updates only the
broker-reported `true_share_count` (and the contract id): the trade map -
hence the internally computed size - and the pool are untouched, so no
Trade is created, mutated, or removed and the internal size is never
reconciled to the broker value; and when `true_share_count` transitions to
exactly zero from a non-zero value, every live TAKE_PROFIT and STOP_LOSS
order in the pool is marked for cancellation. -/
theorem C7_position_update_frame (p : Position) (cid pos : Int) :
    (p.handle_position_update cid pos).trades = p.trades
      ∧ (p.handle_position_update cid pos).pool = p.pool
      ∧ (p.handle_position_update cid pos).size = p.size
      ∧ (p.handle_position_update cid pos).true_share_count = pos
      ∧ (p.handle_position_update cid pos).contract_id = some cid
      ∧ (pos = 0 → p.true_share_count ≠ 0 →
          ∀ o ∈ p.pool.orders,
            (o.order_type = OrderType.TAKE_PROFIT
              ∨ o.order_type = OrderType.STOP_LOSS) →
            ∃ o' ∈ (p.handle_position_update cid pos).orders_to_cancel,
              o'.order_id = o.order_id) := by
  unfold Position.handle_position_update
  by_cases hz : pos = 0 ∧ p.true_share_count ≠ 0
  · rw [if_pos (by simpa using hz)]
    refine ⟨(foldl_set_cancel_status_frame _ _).1,
      (foldl_set_cancel_status_frame _ _).2.1, ?_, ?_, ?_, ?_⟩
    · unfold Position.size
      rw [(foldl_set_cancel_status_frame _ _).1]
    · rw [(foldl_set_cancel_status_frame _ _).2.2.1]
    · rw [(foldl_set_cancel_status_frame _ _).2.2.2.1]
    · intro h0 hne o hmem hty
      refine foldl_set_cancel_status_marks _ _ o ?_
      simp only [List.mem_filter]
      refine ⟨hmem, ?_⟩
      rcases hty with h | h <;> simp [h]
  · rw [if_neg (by simpa using hz)]
    refine ⟨rfl, rfl, rfl, rfl, rfl, ?_⟩
    intro h0 hne
    exact absurd ⟨h0, hne⟩ hz

/-- Witness for C7: the concrete position with a live take-profit, a live
stop-loss and a live entry order transitions from `true_share_count = 5`
to zero; the trades and the pool are untouched and the stop-loss order id
7 is marked for cancellation. -/
theorem C7_position_update_frame_witness :
    (posC7.handle_position_update 123 0).trades = posC7.trades
      ∧ ∃ o' ∈ (posC7.handle_position_update 123 0).orders_to_cancel,
          o'.order_id = orderC4sl.order_id :=
  ⟨(C7_position_update_frame posC7 123 0).1,
    (C7_position_update_frame posC7 123 0).2.2.2.2.2 rfl (by norm_num [posC7])
      orderC4sl (by simp [posC7, PendingOrderPool.orders, orderC4sl])
      (Or.inr rfl)⟩
/-! ## Helper lemmas for the position side/size invariant -/

theorem findKey_updKey_ne (l : List (Nat × α)) (k k' : Nat) (v : α)
    (h : k' ≠ k) : findKey (updKey l k v) k' = findKey l k' := by
  induction l with
  | nil => simp [updKey, findKey, Ne.symm h]
  | cons kv rest ih =>
      obtain ⟨k0, v0⟩ := kv
      by_cases h0 : k0 = k
      · subst h0
        simp [updKey, findKey, Ne.symm h]
      · simp [updKey, findKey, h0, ih]

theorem mem_updKey (l : List (Nat × α)) (k : Nat) (v : α) (kv : Nat × α)
    (h : kv ∈ updKey l k v) : kv = (k, v) ∨ kv ∈ l := by
  induction l with
  | nil => simpa [updKey] using h
  | cons kv0 rest ih =>
      obtain ⟨k0, v0⟩ := kv0
      by_cases h0 : k0 = k
      · simp only [updKey, h0, if_true, reduceIte, List.mem_cons] at h
        rcases h with h | h
        · exact Or.inl h
        · exact Or.inr (List.mem_cons_of_mem _ h)
      · simp only [updKey, h0, if_false, reduceIte, List.mem_cons] at h
        rcases h with h | h
        · exact Or.inr (List.mem_cons.mpr (Or.inl h))
        · rcases ih h with h' | h'
          · exact Or.inl h'
          · exact Or.inr (List.mem_cons_of_mem _ h')

theorem keys_updKey_mem (l : List (Nat × α)) (k : Nat) (v : α)
    (h : k ∈ l.map Prod.fst) :
    (updKey l k v).map Prod.fst = l.map Prod.fst := by
  induction l with
  | nil => simp at h
  | cons kv rest ih =>
      obtain ⟨k0, v0⟩ := kv
      by_cases h0 : k0 = k
      · simp [updKey, h0]
      · simp only [List.map_cons, List.mem_cons] at h
        rcases h with h | h
        · exact absurd h.symm h0
        · simp [updKey, h0, ih h]

theorem keys_updKey_not_mem (l : List (Nat × α)) (k : Nat) (v : α)
    (h : k ∉ l.map Prod.fst) :
    (updKey l k v).map Prod.fst = l.map Prod.fst ++ [k] := by
  induction l with
  | nil => simp [updKey]
  | cons kv rest ih =>
      obtain ⟨k0, v0⟩ := kv
      simp only [List.map_cons, List.mem_cons, not_or] at h
      simp [updKey, Ne.symm h.1, ih h.2]

/-- A freshly constructed position satisfies the invariant. -/
theorem initial_posInv (a : TraderAssignment) : PosInv (Position.initial a) := by
  refine ⟨?_, ?_, ?_⟩ <;> simp [Position.initial, PosInv]

/-- The invariant gives the claimed correspondence. -/
theorem posInv_side_iff_size (p : Position) (hinv : PosInv p) :
    p.side = none ↔ p.size = 0 := by
  obtain ⟨htr, -, hcache⟩ := hinv
  cases htrades : p.trades with
  | nil =>
      have hsz : p.size = 0 := by simp [Position.size, htrades]
      have hside : p.side = none := by
        simp [Position.side, hsz, hcache htrades]
      simp [hside, hsz]
  | cons kv rest =>
      have hpos : 0 < p.size := by
        unfold Position.size
        refine List.sum_pos _ (fun x hx => ?_) (by simp [htrades])
        simp only [List.mem_map] at hx
        obtain ⟨kv', hkv', rfl⟩ := hx
        exact (htr kv' hkv').1
      have hsz : p.size ≠ 0 := ne_of_gt hpos
      have hside : p.side = some kv.2.side := by
        unfold Position.side
        rw [if_neg (by simp [hsz]), htrades]
      simp [hside, hsz]

theorem updKey_ne_nil (l : List (Nat × α)) (k : Nat) (v : α) :
    updKey l k v ≠ [] := by
  cases l with
  | nil => simp [updKey]
  | cons kv rest =>
      obtain ⟨k0, v0⟩ := kv
      by_cases h0 : k0 = k <;> simp [updKey, h0]

theorem fresh_not_key (p : Position) (id : Nat) (hinv : PosInv p)
    (hfresh : ∀ kv ∈ p.trades, findKey kv.2.entry_fills_sizes id = none) :
    id ∉ p.trades.map Prod.fst := by
  intro hmem
  simp only [List.mem_map] at hmem
  obtain ⟨kv, hkv, hfst⟩ := hmem
  have h1 := (hinv.1 kv hkv).2.2
  rw [hfst, hfresh kv hkv] at h1
  simp at h1

theorem trade_add_ok (tr : Trade) (now : ℚ) (id : Nat) (sd : PositionSide)
    (sz ap : ℚ) (t : Trade) (h : tr.add now id sd sz ap = .ok t) :
    t.entry_fills_sizes = updKey tr.entry_fills_sizes id sz
      ∧ t.exit_fills_sizes = tr.exit_fills_sizes
      ∧ t.size = sumVals (updKey tr.entry_fills_sizes id sz)
          - sumVals tr.exit_fills_sizes
      ∧ t.side = tr.side := by
  unfold Trade.add at h
  split_ifs at h
  simp only [Except.ok.injEq] at h
  subst h
  exact ⟨rfl, rfl, rfl, rfl⟩

theorem addcore_preserves_posInv (p : Position) (now : ℚ) (id : Nat)
    (sd : PositionSide) (sz ap : ℚ) (t : Trade) (p' : Position)
    (hinv : PosInv p) (hsz : 0 < sz)
    (hfresh : ∀ kv ∈ p.trades, findKey kv.2.entry_fills_sizes id = none)
    (hcase : (∃ tid tr, p.open_trade now = some (tid, tr)
          ∧ tr.add now id sd sz ap = .ok t
          ∧ p' = { p with trades := updKey p.trades tid t })
        ∨ (t = Trade.from_entry now id sd sz ap
              p.assignment.trade_threshold p.assignment.hold_threshold
              p.assignment.take_profit_target p.assignment.stop_loss_target
            ∧ p' = { p with trades := updKey p.trades id t })) :
    PosInv p' := by
  have hidkey : id ∉ p.trades.map Prod.fst := fresh_not_key p id hinv hfresh
  obtain ⟨htr, hnd, -⟩ := hinv
  rcases hcase with ⟨tid, tr, hot, hadd, rfl⟩ | ⟨rfl, rfl⟩
  · have htrmem : (tid, tr) ∈ p.trades := List.mem_of_find?_eq_some hot
    have htidkey : tid ∈ p.trades.map Prod.fst :=
      List.mem_map.mpr ⟨(tid, tr), htrmem, rfl⟩
    have htidne : tid ≠ id := fun he => hidkey (he ▸ htidkey)
    have hfr : findKey tr.entry_fills_sizes id = none :=
      hfresh (tid, tr) htrmem
    obtain ⟨he, hx, hs, -⟩ := trade_add_ok tr now id sd sz ap t hadd
    obtain ⟨hpos, heq, hkey⟩ := htr (tid, tr) htrmem
    have hsz' : t.size = tr.size + sz := by
      rw [hs, sumVals_updKey, hfr]
      simp only [Option.getD]
      linarith [heq]
    refine ⟨?_, ?_, ?_⟩
    · intro kv hkv
      rcases mem_updKey _ _ _ _ hkv with rfl | hmem
      · refine ⟨by rw [hsz']; linarith, by rw [hs, he, hx], ?_⟩
        rw [he, findKey_updKey_ne _ _ _ _ htidne]
        exact hkey
      · exact htr kv hmem
    · rw [keys_updKey_mem _ _ _ htidkey]
      exact hnd
    · intro hnil
      exact absurd hnil (updKey_ne_nil _ _ _)
  · refine ⟨?_, ?_, ?_⟩
    · intro kv hkv
      rcases mem_updKey _ _ _ _ hkv with rfl | hmem
      · refine ⟨by simpa [Trade.from_entry] using hsz, ?_, ?_⟩ <;>
          simp [Trade.from_entry, sumVals, findKey]
      · exact htr kv hmem
    · rw [keys_updKey_not_mem _ _ _ hidkey]
      simp [List.nodup_append, hnd, hidkey]
    · intro hnil
      exact absurd hnil (updKey_ne_nil _ _ _)

theorem add_to_position_ok_cases (p : Position) (now : ℚ) (id : Nat)
    (action : OrderAction) (sz ap : ℚ) (t : Trade) (p' : Position)
    (hok : p.add_to_position now id action sz ap = .ok (t, p')) :
    (∃ tid tr, p.open_trade now = some (tid, tr)
        ∧ tr.add now id
            (if action = OrderAction.BUY then PositionSide.LONG
              else PositionSide.SHORT) sz ap = .ok t
        ∧ p' = { p with trades := updKey p.trades tid t })
      ∨ (t = Trade.from_entry now id
            (if action = OrderAction.BUY then PositionSide.LONG
              else PositionSide.SHORT) sz ap
            p.assignment.trade_threshold p.assignment.hold_threshold
            p.assignment.take_profit_target p.assignment.stop_loss_target
          ∧ p' = { p with trades := updKey p.trades id t }) := by
  unfold Position.add_to_position at hok
  cases action with
  | BUY =>
      simp only [reduceCtorEq, reduceIte, if_true, if_false] at hok ⊢
      split_ifs at hok
      split at hok
      · rename_i tid tr hot
        split at hok
        · simp at hok
        · rename_i t' hadd
          simp only [Except.ok.injEq, Prod.mk.injEq] at hok
          obtain ⟨rfl, rfl⟩ := hok
          exact Or.inl ⟨tid, tr, hot, hadd, rfl⟩
      · rename_i hot
        simp only [Except.ok.injEq, Prod.mk.injEq] at hok
        obtain ⟨rfl, rfl⟩ := hok
        exact Or.inr ⟨rfl, rfl⟩
  | SELL =>
      simp only [reduceCtorEq, reduceIte, if_true, if_false] at hok ⊢
      split_ifs at hok
      split at hok
      · rename_i tid tr hot
        split at hok
        · simp at hok
        · rename_i t' hadd
          simp only [Except.ok.injEq, Prod.mk.injEq] at hok
          obtain ⟨rfl, rfl⟩ := hok
          exact Or.inl ⟨tid, tr, hot, hadd, rfl⟩
      · rename_i hot
        simp only [Except.ok.injEq, Prod.mk.injEq] at hok
        obtain ⟨rfl, rfl⟩ := hok
        exact Or.inr ⟨rfl, rfl⟩

theorem entryFill_preserves_posInv (p : Position) (now : ℚ) (id : Nat)
    (action : OrderAction) (sz ap : ℚ) (t : Trade) (p' : Position)
    (hinv : PosInv p) (hsz : 0 < sz)
    (hfresh : ∀ kv ∈ p.trades, findKey kv.2.entry_fills_sizes id = none)
    (hok : p.add_to_position now id action sz ap = .ok (t, p')) :
    PosInv p' :=
  addcore_preserves_posInv p now id _ sz ap t p' hinv hsz hfresh
    (add_to_position_ok_cases p now id action sz ap t p' hok)

theorem remove_keeps_entry (t : Trade) (id : Nat) (ns price : ℚ) :
    ((t.remove id ns price).2).entry_fills_sizes = t.entry_fills_sizes := by
  by_cases h0 : min t.size
      (ns - (findKey t.exit_fills_sizes id).getD 0) = 0 <;>
    simp [Trade.remove, h0]

/-- A trade that survives a `Trade.remove` (with the take-profit flag
possibly stamped) keeps the per-trade invariant. -/
theorem removed_trade_inv (tid : Nat) (tr t2 : Trade) (oid : Nat)
    (ns price : ℚ) (hinv : TradeRecInv (tid, tr))
    (ht2 : t2 = (tr.remove oid ns price).2
      ∨ t2 = { (tr.remove oid ns price).2 with take_profit_filled := true })
    (hnz : t2.size ≠ 0) : TradeRecInv (tid, t2) := by
  obtain ⟨hpos, heq, hkey⟩ := hinv
  have h1eq := remove_keeps_sum_eq tr oid ns price heq
  have h1nn := remove_keeps_nonneg tr oid ns price (le_of_lt hpos)
  have h1en := remove_keeps_entry tr oid ns price
  rcases ht2 with rfl | rfl <;>
    exact ⟨lt_of_le_of_ne (by simpa using h1nn)
        (Ne.symm (by simpa using hnz)),
      by simpa using h1eq, by simp only [h1en] at hkey ⊢; simpa using hkey⟩

/-- The loop of `remove_from_position` keeps every surviving trade's
invariant and only ever drops trades (the surviving keys are a sublist of
the input keys). -/
theorem removeLoop_posInv (oid : Nat) (price : ℚ) (is_sl is_tp : Bool)
    (ns : ℚ) (l : List (Nat × Trade))
    (hl : ∀ kv ∈ l, TradeRecInv kv) :
    (∀ kv ∈ (Position.removeLoop oid price is_sl is_tp ns l).1,
        TradeRecInv kv)
      ∧ ((Position.removeLoop oid price is_sl is_tp ns l).1.map
          Prod.fst).Sublist (l.map Prod.fst) := by
  induction l generalizing ns with
  | nil => simp [Position.removeLoop]
  | cons kv rest ih =>
      obtain ⟨tid, tr⟩ := kv
      have hhd : TradeRecInv (tid, tr) := hl (tid, tr) (List.mem_cons_self _ _)
      have hrest : ∀ kv ∈ rest, TradeRecInv kv :=
        fun kv hkv => hl kv (List.mem_cons_of_mem _ hkv)
      have ihr := fun ns => ih ns hrest
      have hsub1 : (List.map Prod.fst rest).Sublist
          (List.map Prod.fst ((tid, tr) :: rest)) := by
        simp only [List.map_cons]
        exact List.Sublist.cons tid (List.Sublist.refl _)
      unfold Position.removeLoop
      simp only
      split
      · -- bracketed by a different order: the trade is skipped
        refine ⟨?_, ?_⟩
        · intro kv hkv
          rcases List.mem_cons.mp hkv with rfl | hm
          · exact hhd
          · exact (ihr ns).1 kv hm
        · simp only [List.map_cons]
          exact ((ihr ns).2).cons₂ tid
      · -- the fill is folded into this trade
        split
        · -- take-profit fully consumed: mark the trade take-profit-filled
          rename_i htp
          rw [Bool.and_eq_true] at htp
          have hn : (tr.remove oid ns price).1 = 0 :=
            of_decide_eq_true htp.2
          simp only [if_pos hn]
          split
          · -- emptied: the trade is closed, shares exhausted
            exact ⟨hrest, hsub1⟩
          · -- the trade survives with its take profit marked
            rename_i hnz
            refine ⟨?_, ?_⟩
            · intro kv hkv
              rcases List.mem_cons.mp hkv with rfl | hm
              · exact removed_trade_inv tid tr _ oid ns price hhd
                  (Or.inr rfl) hnz
              · exact hrest kv hm
            · simp only [List.map_cons]
              exact (List.Sublist.refl _).cons₂ tid
        · -- no take-profit marking
          split
          · -- the trade was emptied and is closed
            split
            · -- shares exhausted
              exact ⟨hrest, hsub1⟩
            · -- leftover shares cascade to the remaining trades
              exact ⟨(ihr _).1, ((ihr _).2).trans hsub1⟩
          · -- the trade survives
            rename_i hnz
            split
            · -- shares exhausted at this trade
              refine ⟨?_, ?_⟩
              · intro kv hkv
                rcases List.mem_cons.mp hkv with rfl | hm
                · exact removed_trade_inv tid tr _ oid ns price hhd
                    (Or.inl rfl) hnz
                · exact hrest kv hm
              · simp only [List.map_cons]
                exact (List.Sublist.refl _).cons₂ tid
            · -- leftover shares cascade past the surviving trade
              refine ⟨?_, ?_⟩
              · intro kv hkv
                rcases List.mem_cons.mp hkv with rfl | hm
                · exact removed_trade_inv tid tr _ oid ns price hhd
                    (Or.inl rfl) hnz
                · exact (ihr _).1 kv hm
              · simp only [List.map_cons]
                exact ((ihr _).2).cons₂ tid

/-- The position invariant only reads the trade map and the side cache. -/
theorem posInv_ext (p q : Position) (ht : q.trades = p.trades)
    (hc : q.position_side_cached = p.position_side_cached)
    (h : PosInv p) : PosInv q := by
  unfold PosInv at h ⊢
  rw [ht, hc]
  exact h

/-- An exit-type fill routed through `remove_from_position` preserves the
position invariant. -/
theorem exitFill_preserves_posInv (p : Position) (id : Nat) (ns price : ℚ)
    (is_sl is_tp : Bool) (hinv : PosInv p) :
    PosInv (p.remove_from_position id ns price is_sl is_tp) := by
  have hloop := removeLoop_posInv id price is_sl is_tp ns p.trades hinv.1
  unfold Position.remove_from_position
  simp only
  refine posInv_ext _ _ (foldl_set_cancel_status_frame _ _).1
    (foldl_set_cancel_status_frame _ _).2.2.2.2 ?_
  refine ⟨hloop.1, ?_, ?_⟩
  · show ((Position.removeLoop id price is_sl is_tp ns p.trades).1.map
        Prod.fst).Nodup
    exact List.Nodup.sublist hloop.2 hinv.2.1
  · intro hnil
    have hnil' : (Position.removeLoop id price is_sl is_tp ns p.trades).1
        = [] := hnil
    show (if (Position.removeLoop id price is_sl is_tp ns p.trades).1 = []
          ∧ p.trades ≠ [] then none else p.position_side_cached) = none
    by_cases hpt : p.trades = []
    · rw [if_neg (by simp [hpt])]
      exact hinv.2.2 hpt
    · rw [if_pos ⟨hnil', hpt⟩]

/-- The caching side effect of reading `Position.side` preserves the
position invariant. -/
theorem readSide_preserves_posInv (p : Position) (hinv : PosInv p) :
    PosInv p.readSideCache := by
  refine ⟨hinv.1, hinv.2.1, ?_⟩
  intro hnil
  have hnil' : p.trades = [] := hnil
  have hc := hinv.2.2 hnil'
  show (if p.size = 0 ∧ p.position_side_cached = none then
      p.position_side_cached
    else match p.trades with
      | [] => p.position_side_cached
      | (_, t) :: _ => some t.side) = none
  rw [hnil']
  split_ifs <;> exact hc

/-- Attaching or clearing order references keeps the trade keys. -/
theorem forall2_keys_eq (l l' : List (Nat × Trade))
    (h : List.Forall₂
      (fun kv kv' => kv'.1 = kv.1 ∧ sameCore kv.2 kv'.2) l l') :
    l'.map Prod.fst = l.map Prod.fst := by
  induction h with
  | nil => rfl
  | cons h1 h2 ih => simp [List.map_cons, ih, h1.1]

/-- Attaching or clearing order references keeps every trade's
invariant. -/
theorem forall2_traderec (l l' : List (Nat × Trade))
    (h : List.Forall₂
      (fun kv kv' => kv'.1 = kv.1 ∧ sameCore kv.2 kv'.2) l l')
    (hl : ∀ kv ∈ l, TradeRecInv kv) :
    ∀ kv ∈ l', TradeRecInv kv := by
  induction h with
  | nil => simp
  | cons h1 h2 ih =>
      intro kv hkv
      rcases List.mem_cons.mp hkv with rfl | hm
      · obtain ⟨hid, hside, hsz, hef, hxf⟩ := h1
        have ha := hl _ (List.mem_cons_self _ _)
        refine ⟨by rw [hsz]; exact ha.1, ?_, ?_⟩
        · rw [hsz, hef, hxf]
          exact ha.2.1
        · rw [hef, hid]
          exact ha.2.2
      · exact ih (fun kv hkv => hl kv (List.mem_cons_of_mem _ hkv)) kv hm

/-- A reference-attaching mutation preserves the position invariant. -/
theorem attachRefs_preserves_posInv (p : Position)
    (trades' : List (Nat × Trade))
    (h : List.Forall₂
      (fun kv kv' => kv'.1 = kv.1 ∧ sameCore kv.2 kv'.2) p.trades trades')
    (hinv : PosInv p) : PosInv { p with trades := trades' } := by
  refine ⟨forall2_traderec _ _ h hinv.1, ?_, ?_⟩
  · show (trades'.map Prod.fst).Nodup
    rw [forall2_keys_eq _ _ h]
    exact hinv.2.1
  · intro hnil
    have hnil' : trades' = [] := hnil
    have hlen := h.length_eq
    rw [hnil'] at hlen
    simp only [List.length_nil] at hlen
    exact hinv.2.2 (List.length_eq_zero.mp hlen)

/-- Every mutation step of the position state machine preserves the
invariant. -/
theorem posStep_preserves_posInv (p q : Position) (h : PosStep p q)
    (hinv : PosInv p) : PosInv q := by
  cases h with
  | entryFill now id action sz ap t _ hsz hfresh hok =>
      exact entryFill_preserves_posInv p now id action sz ap t q hinv hsz
        hfresh hok
  | exitFill id ns price is_sl is_tp =>
      exact exitFill_preserves_posInv p id ns price is_sl is_tp hinv
  | readSide => exact readSide_preserves_posInv p hinv
  | attachRefs trades' hf =>
      exact attachRefs_preserves_posInv p trades' hf hinv
  | otherFields pool' cancel' tsc' cid' cd' pnls' => exact hinv

/-- C9: for every reachable `Position` state, `Position.side` is `None`
if and only if `Position.size` - the sum of the live trades' sizes -
equals 0. Reachability is modelled by the `PosStep` machine over the
mutations the handlers of `position.py` perform. -/
theorem C9_side_size_correspondence (p : Position) (h : PosReachable p) :
    p.side = none ↔ p.size = 0 := by
  obtain ⟨a, hsteps⟩ := h
  have hinv : PosInv p := by
    induction hsteps with
    | refl => exact initial_posInv a
    | tail hs hstep ih => exact posStep_preserves_posInv _ _ hstep ih
  exact posInv_side_iff_size p hinv

/-- C9, instantiated: the freshly constructed position for the C3 ticker
assignment is reachable, its side is `None` and its size is 0. -/
theorem C9_side_size_correspondence_witness :
    (Position.initial asgC3).side = none ↔ (Position.initial asgC3).size = 0 :=
  C9_side_size_correspondence (Position.initial asgC3)
    ⟨asgC3, Relation.ReflTransGen.refl⟩

end LRtrader